import Mathlib

/-!
# Verification of the crypto-intelligence ingestion-and-analysis pipeline

Shallow embedding of the pipeline's core services (market processor, technical
analysis, alert service, correlation engine, fetch client, forecast ensemble)
together with proofs of the behavioural properties claimed for them.

Modelling conventions:
* JavaScript numbers are idealized as exact rationals (`ℚ`) wherever the code
  only uses field operations and comparisons, and as reals (`ℝ`) where
  `Math.sqrt` enters (correlation, forecast normalization).
* A possibly-`null`/`undefined` number is an `Option ℚ` (or `Option ℝ`);
  JS truthiness of such a value is "present and nonzero".
* JS `Map`s and plain objects are association lists with insert-or-overwrite
  assignment; object-key iteration order is insertion order.
* `async` functions that can throw are modelled with `Except` / explicit
  result-plus-state returns; database writes append to an explicit table.
* Fields of the original records that no claim observes (human-readable
  description strings, ISO timestamps of rows) are omitted from the records.
-/

namespace CryptoIntel

/-- JS truthiness of a possibly-missing numeric value:
`null`, `undefined` and `0` are falsy, any other number is truthy. -/
def truthy : Option ℚ → Bool
  | none => false
  | some v => decide (v ≠ 0)

/-- JS `a > b` on possibly-undefined numbers: false unless both are present. -/
def qGT : Option ℚ → Option ℚ → Bool
  | some a, some b => decide (b < a)
  | _, _ => false

/-- JS `a < b` on possibly-undefined numbers: false unless both are present. -/
def qLT : Option ℚ → Option ℚ → Bool
  | some a, some b => decide (a < b)
  | _, _ => false

/-- JS `a <= b` on possibly-undefined numbers: false unless both are present. -/
def qLE : Option ℚ → Option ℚ → Bool
  | some a, some b => decide (a ≤ b)
  | _, _ => false

/-- JS `a >= b` on possibly-undefined numbers: false unless both are present. -/
def qGE : Option ℚ → Option ℚ → Bool
  | some a, some b => decide (b ≤ a)
  | _, _ => false

/-! ## Configuration (backend/config.js) -/

namespace config

def priceThreshold : ℚ := 5
def volumeThreshold : ℚ := 20
def smaPeriods : List ℕ := [7, 25, 99]
def rsiPeriod : ℕ := 14
def rsiOverbought : ℚ := 70
def rsiOversold : ℚ := 30
def macdFastPeriod : ℕ := 12
def macdSlowPeriod : ℕ := 26
def macdSignalPeriod : ℕ := 9

end config

/-! ## Market processor (DataProcessor.detectAnomalies) -/

/-- The fields of a provider coin snapshot that anomaly detection reads. -/
structure Coin where
  id : String
  current_price : Option ℚ
  total_volume : Option ℚ
deriving DecidableEq

/-- One entry of the in-memory `previousValues` map. -/
structure PrevValues where
  price : Option ℚ
  volume : Option ℚ
deriving DecidableEq

/-- An anomaly record as produced by `detectAnomalies`
(description string and timestamp omitted). -/
structure Anomaly where
  crypto_id : String
  anomaly_type : String
  old_value : ℚ
  new_value : ℚ
  percentage_change : ℚ
deriving DecidableEq

/-- `DataProcessor.detectAnomalies`: compares the incoming snapshot against the
previous values cached for the same coin id and emits price/volume anomalies
when the absolute percentage change reaches the configured threshold. -/
def detectAnomalies (previousValues : List (String × PrevValues)) (coin : Coin) :
    List Anomaly :=
  match (previousValues.find? (fun p => p.1 == coin.id)).map Prod.snd with
  | none => []
  | some prevValues =>
    let priceAnomalies :=
      if truthy prevValues.price && truthy coin.current_price then
        let oldPrice := prevValues.price.getD 0
        let newPrice := coin.current_price.getD 0
        let priceChange := (newPrice - oldPrice) / oldPrice * 100
        if config.priceThreshold ≤ |priceChange| then
          [{ crypto_id := coin.id, anomaly_type := "price", old_value := oldPrice,
             new_value := newPrice, percentage_change := priceChange }]
        else []
      else []
    let volumeAnomalies :=
      if truthy prevValues.volume && truthy coin.total_volume then
        let oldVolume := prevValues.volume.getD 0
        let newVolume := coin.total_volume.getD 0
        let volumeChange := (newVolume - oldVolume) / oldVolume * 100
        if config.volumeThreshold ≤ |volumeChange| then
          [{ crypto_id := coin.id, anomaly_type := "volume", old_value := oldVolume,
             new_value := newVolume, percentage_change := volumeChange }]
        else []
      else []
    priceAnomalies ++ volumeAnomalies

/-! ## Technical analysis service -/

namespace technicalAnalysis

/-- One point of the MACD series returned by the indicator library; the MACD,
signal and histogram components may each be undefined on early points. -/
structure MacdPoint where
  MACD : Option ℚ
  signal : Option ℚ
  histogram : Option ℚ
deriving DecidableEq

/-- The crossover-signal determination of `calculateMACD`: `buy` (`sell`) only
when the MACD line is above (below) the signal line at the last observation and
was at-or-below (at-or-above) it at the observation before. -/
def macdCrossSignal (macd : List MacdPoint) : String :=
  match macd.getLast? with
  | none => "neutral"
  | some current =>
    let prev := macd.getD (macd.length - 2) ⟨none, none, none⟩
    if qGT current.MACD current.signal && decide (1 < macd.length) &&
        qLE prev.MACD prev.signal then "buy"
    else if qLT current.MACD current.signal && decide (1 < macd.length) &&
        qGE prev.MACD prev.signal then "sell"
    else "neutral"

/-- One entry of the SMA results map (`period_N` key) in `calculateIndicators`
results: the period and the current (last) value if the series is nonempty. -/
structure SmaEntry where
  period : ℕ
  current : Option ℚ
deriving DecidableEq

/-- The RSI result record of `calculateIndicators`. -/
structure RsiResult where
  period : ℕ
  current : Option ℚ
  condition : String
deriving DecidableEq

/-- The MACD result record of `calculateIndicators` (values list omitted;
only the fields `saveIndicators` reads are kept). -/
structure MacdResult where
  fastPeriod : ℕ
  slowPeriod : ℕ
  signalPeriod : ℕ
  current : Option MacdPoint
  signal : String
deriving DecidableEq

/-- The `results` object passed to `saveIndicators`. -/
structure IndicatorResults where
  cryptoId : String
  timestamp : String
  sma : List SmaEntry
  rsi : RsiResult
  macd : MacdResult
deriving DecidableEq

/-- The serialized `parameters` JSON blob of one insert query. -/
inductive QueryParams where
  | smaParams (period : ℕ)
  | rsiParams (period : ℕ) (condition : String)
  | macdLineParams (fastPeriod slowPeriod signalPeriod : ℕ) (sig : String)
  | macdParams (fastPeriod slowPeriod signalPeriod : ℕ)
deriving DecidableEq

/-- One pending `INSERT INTO technical_indicators` query built by
`saveIndicators`. -/
structure Query where
  crypto_id : String
  indicator_type : String
  value : Option ℚ
  parameters : QueryParams
  timestamp : String
deriving DecidableEq

/-- The list of insert queries `saveIndicators` builds (in push order) before
running them in one transaction. The doubled null-check on SMA and RSI and the
unconditional second RSI push mirror the source exactly. -/
def saveIndicatorsQueries (results : IndicatorResults) : List Query :=
  let smaQueries := results.sma.flatMap (fun sma =>
    if sma.current = none then []
    else if sma.current = none then []   -- the source's redundant second null-check
    else [{ crypto_id := results.cryptoId, indicator_type := "SMA",
            value := sma.current, parameters := .smaParams sma.period,
            timestamp := results.timestamp }])
  let rsiQueries :=
    if results.rsi.current = none then []
    else
      (if results.rsi.current = none then []
       else [{ crypto_id := results.cryptoId, indicator_type := "RSI",
               value := results.rsi.current,
               parameters := .rsiParams results.rsi.period results.rsi.condition,
               timestamp := results.timestamp }])
      ++ [{ crypto_id := results.cryptoId, indicator_type := "RSI",
            value := results.rsi.current,
            parameters := .rsiParams results.rsi.period results.rsi.condition,
            timestamp := results.timestamp }]
  let macdQueries :=
    match results.macd.current with
    | none => []
    | some current =>
      if current.MACD = none then []
      else
        [{ crypto_id := results.cryptoId, indicator_type := "MACD_line",
           value := current.MACD,
           parameters := .macdLineParams results.macd.fastPeriod
             results.macd.slowPeriod results.macd.signalPeriod results.macd.signal,
           timestamp := results.timestamp },
         { crypto_id := results.cryptoId, indicator_type := "MACD_signal",
           value := current.signal,
           parameters := .macdParams results.macd.fastPeriod
             results.macd.slowPeriod results.macd.signalPeriod,
           timestamp := results.timestamp },
         { crypto_id := results.cryptoId, indicator_type := "MACD_histogram",
           value := current.histogram,
           parameters := .macdParams results.macd.fastPeriod
             results.macd.slowPeriod results.macd.signalPeriod,
           timestamp := results.timestamp }]
  smaQueries ++ (rsiQueries ++ macdQueries)

/-- A `{ value }` record as returned by `getLatestIndicators` for one
indicator row. -/
structure LatestValue where
  value : ℚ
deriving DecidableEq

/-- The `macd.histogram` record handed to `interpretIndicators`
(`previousValue` is read by the code but never provided by
`getLatestIndicators`, hence optional). -/
structure HistogramLatest where
  value : ℚ
  previousValue : Option ℚ
deriving DecidableEq

/-- The `macd` sub-object handed to `interpretIndicators`. -/
structure MacdLatest where
  line : Option LatestValue
  signal : Option LatestValue
  histogram : Option HistogramLatest
deriving DecidableEq

/-- The `indicators.indicators` object handed to `interpretIndicators`:
the SMA map (period, latest value), the RSI record (present or `null`, with a
possibly-`null` value), and the MACD sub-object (present or `null`). -/
structure InterpretInput where
  sma : List (ℕ × ℚ)
  rsi : Option (Option ℚ)
  macd : Option MacdLatest
deriving DecidableEq

/-- The interpretation object built by `interpretIndicators`. -/
structure Interpretation where
  smaCrossover : Option String
  rsiCondition : Option String
  rsiSignal : Option String
  macdCrossover : Option String
  macdSignal : Option String
  macdHistogramLabel : Option String
  overallSignal : String
  overallStrength : ℚ
  buySignals : ℕ
  sellSignals : ℕ
  neutralSignals : ℕ
deriving DecidableEq

/-- `interpretIndicators`: combines the shortest/longest SMA comparison, the
RSI condition and the MACD line-vs-signal comparison into vote counts and a
majority overall signal. Note that the MACD vote compares the *current* line
and signal values only. -/
def interpretIndicators (inp : InterpretInput) : Interpretation :=
  -- SMA interpretation
  let smaPart : Option String × ℕ × ℕ × ℕ :=
    if inp.sma ≠ [] then
      let periods := (inp.sma.map Prod.fst).mergeSort (· ≤ ·)
      if 2 ≤ periods.length then
        let shortPeriod := periods.headD 0
        let longPeriod := periods.getLastD 0
        match (inp.sma.find? (fun p => p.1 == shortPeriod)).map Prod.snd,
              (inp.sma.find? (fun p => p.1 == longPeriod)).map Prod.snd with
        | some shortSMA, some longSMA =>
          if longSMA < shortSMA then (some "bullish", 1, 0, 0)
          else if shortSMA < longSMA then (some "bearish", 0, 1, 0)
          else (some "neutral", 0, 0, 1)
        | _, _ => (none, 0, 0, 0)
      else (none, 0, 0, 0)
    else (none, 0, 0, 0)
  -- RSI interpretation
  let rsiPart : Option String × Option String × ℕ × ℕ × ℕ :=
    match inp.rsi with
    | some (some rsiValue) =>
      if config.rsiOverbought ≤ rsiValue then (some "overbought", some "sell", 0, 1, 0)
      else if rsiValue ≤ config.rsiOversold then (some "oversold", some "buy", 1, 0, 0)
      else (some "neutral", some "neutral", 0, 0, 1)
    | _ => (none, none, 0, 0, 0)
  -- MACD interpretation
  let macdPart : Option String × Option String × Option String × ℕ × ℕ × ℕ :=
    match inp.macd with
    | some macd =>
      match macd.line, macd.signal with
      | some line, some signalLine =>
        let macdValue := line.value
        let signalValue := signalLine.value
        let vote : Option String × Option String × ℕ × ℕ × ℕ :=
          if signalValue < macdValue then (some "bullish", some "buy", 1, 0, 0)
          else if macdValue < signalValue then (some "bearish", some "sell", 0, 1, 0)
          else (some "neutral", some "neutral", 0, 0, 1)
        let histogramLabel : Option String :=
          match macd.histogram with
          | some histogram =>
            let prevCmpGT := match histogram.previousValue with
              | some p => decide (p < histogram.value)
              | none => false
            let prevCmpLT := match histogram.previousValue with
              | some p => decide (histogram.value < p)
              | none => false
            if decide (0 < histogram.value) && prevCmpGT then some "increasing_positive"
            else if decide (0 < histogram.value) && prevCmpLT then some "decreasing_positive"
            else if decide (histogram.value < 0) && prevCmpLT then some "decreasing_negative"
            else if decide (histogram.value < 0) && prevCmpGT then some "increasing_negative"
            else some "neutral"
          | none => none
        (vote.1, vote.2.1, histogramLabel, vote.2.2.1, vote.2.2.2.1, vote.2.2.2.2)
      | _, _ => (none, none, none, 0, 0, 0)
    | none => (none, none, none, 0, 0, 0)
  let buySignals := smaPart.2.1 + rsiPart.2.2.1 + macdPart.2.2.2.1
  let sellSignals := smaPart.2.2.1 + rsiPart.2.2.2.1 + macdPart.2.2.2.2.1
  let neutralSignals := smaPart.2.2.2 + rsiPart.2.2.2.2 + macdPart.2.2.2.2.2
  let total : ℚ := (buySignals : ℚ) + (sellSignals : ℚ) + (neutralSignals : ℚ)
  let overall : String × ℚ :=
    if sellSignals < buySignals ∧ neutralSignals < buySignals then
      ("buy", (buySignals : ℚ) / total)
    else if buySignals < sellSignals ∧ neutralSignals < sellSignals then
      ("sell", (sellSignals : ℚ) / total)
    else
      ("neutral", (neutralSignals : ℚ) / total)
  { smaCrossover := smaPart.1
    rsiCondition := rsiPart.1
    rsiSignal := rsiPart.2.1
    macdCrossover := macdPart.1
    macdSignal := macdPart.2.1
    macdHistogramLabel := macdPart.2.2.1
    overallSignal := overall.1
    overallStrength := overall.2
    buySignals := buySignals
    sellSignals := sellSignals
    neutralSignals := neutralSignals }

end technicalAnalysis

/-! ## Alert service -/

namespace alertService

/-- A row of the `cryptocurrencies` table as read by the alert service. -/
structure Crypto where
  id : String
  name : String
  symbol : String
deriving DecidableEq

/-- A persisted alert row (human-readable message, string id and ISO timestamp
omitted; indicator-driven alerts store `null` in the numeric columns). -/
structure Alert where
  crypto_id : String
  alert_type : String
  old_value : Option ℚ
  new_value : Option ℚ
  percentage_change : Option ℚ
  severity : String
deriving DecidableEq

/-- The alert service's mutable state: the recently-sent dedup `Map`
(key ↦ insertion time `Date.now()`; the cached alert payload is not
observed by any property and is omitted) plus the persisted `alerts` table. -/
structure AlertState where
  sentAlerts : List (String × ℕ)
  alerts : List Alert
deriving DecidableEq

/-- JS `Map.prototype.set`: overwrite in place if the key exists, else append. -/
def mapSet : List (String × ℕ) → String → ℕ → List (String × ℕ)
  | [], k, v => [(k, v)]
  | (k', v') :: rest, k, v =>
    if k' = k then (k, v) :: rest else (k', v') :: mapSet rest k v

/-- JS `Map.prototype.has`. -/
def mapHas (m : List (String × ℕ)) (k : String) : Bool :=
  m.any (fun e => e.1 == k)

/-- `cleanupSentAlerts`: delete every entry strictly older than one hour
(3600000 ms). -/
def cleanupSentAlerts (now : ℕ) (m : List (String × ℕ)) : List (String × ℕ) :=
  m.filter (fun e => !decide (3600000 < now - e.2))

/-- The dedup key built by `createAlertFromAnomaly`: minute-precision bucket. -/
def anomalyAlertKey (anomaly : Anomaly) (now : ℕ) : String :=
  anomaly.crypto_id ++ "-" ++ anomaly.anomaly_type ++ "-" ++ toString (now / 60000)

/-- `createAlertFromAnomaly`: look up the asset, build the minute-bucket dedup
key, drop the anomaly if the key was sent recently, otherwise classify
severity, persist the alert, record the key and prune the dedup map. -/
def createAlertFromAnomaly (cryptos : List Crypto) (now : ℕ) (anomaly : Anomaly)
    (st : AlertState) : Option Alert × AlertState :=
  match cryptos.find? (fun c => c.id == anomaly.crypto_id) with
  | none => (none, st)
  | some _crypto =>
    let alertKey := anomalyAlertKey anomaly now
    if mapHas st.sentAlerts alertKey then (none, st)
    else
      let typeSev : String × String :=
        if anomaly.anomaly_type = "price" then
          if config.priceThreshold * 2 ≤ |anomaly.percentage_change| then
            ((if 0 < anomaly.percentage_change then "price_surge" else "price_drop"), "high")
          else
            ((if 0 < anomaly.percentage_change then "price_increase" else "price_decrease"),
              "medium")
        else if anomaly.anomaly_type = "volume" then
          if config.volumeThreshold * 2 ≤ |anomaly.percentage_change| then
            ("volume_spike", "high")
          else ("volume_change", "medium")
        else ("info", "medium")
      let alert : Alert :=
        { crypto_id := anomaly.crypto_id, alert_type := typeSev.1,
          old_value := some anomaly.old_value, new_value := some anomaly.new_value,
          percentage_change := some anomaly.percentage_change, severity := typeSev.2 }
      let sent := mapSet st.sentAlerts alertKey now
      (some alert,
        { alerts := st.alerts ++ [alert], sentAlerts := cleanupSentAlerts now sent })

/-- `processIndicators`: turns the interpretation's RSI condition, MACD signal,
SMA crossover and strong overall signal into hour-bucketed deduplicated alerts.
No pruning of the dedup map happens on this path. The RSI branch reads
`indicators.indicators.rsi.value`; when that value is absent the branch throws
a `TypeError` which the enclosing catch turns into an empty result. -/
def processIndicators (cryptos : List Crypto) (now : ℕ) (cryptoId : String)
    (rsiValue : Option ℚ) (interp : technicalAnalysis.Interpretation)
    (st : AlertState) : List Alert × AlertState :=
  match cryptos.find? (fun c => c.id == cryptoId) with
  | none => ([], st)
  | some _crypto =>
    -- RSI branch
    let rsiStep : Option (List Alert × AlertState) :=
      if interp.rsiCondition = some "overbought" ∨ interp.rsiCondition = some "oversold" then
        let cond := interp.rsiCondition.getD ""
        let alertKey := cryptoId ++ "-rsi-" ++ cond ++ "-" ++ toString (now / 3600000)
        if mapHas st.sentAlerts alertKey then some ([], st)
        else
          match rsiValue with
          | none => none    -- TypeError from `.toFixed` on an undefined value
          | some v =>
            let alert : Alert :=
              { crypto_id := cryptoId,
                alert_type := if cond = "overbought" then "rsi_overbought" else "rsi_oversold",
                old_value := none, new_value := some v, percentage_change := none,
                severity := "medium" }
            some ([alert],
              { alerts := st.alerts ++ [alert],
                sentAlerts := mapSet st.sentAlerts alertKey now })
      else some ([], st)
    match rsiStep with
    | none => ([], st)      -- the thrown TypeError is caught; nothing is returned
    | some (alerts1, st1) =>
      -- MACD branch
      let step2 : List Alert × AlertState :=
        if interp.macdSignal = some "buy" ∨ interp.macdSignal = some "sell" then
          let sig := interp.macdSignal.getD ""
          let alertKey := cryptoId ++ "-macd-" ++ sig ++ "-" ++ toString (now / 3600000)
          if mapHas st1.sentAlerts alertKey then ([], st1)
          else
            let alert : Alert :=
              { crypto_id := cryptoId,
                alert_type := if sig = "buy" then "macd_bullish_cross" else "macd_bearish_cross",
                old_value := none, new_value := none, percentage_change := none,
                severity := "medium" }
            ([alert],
              { alerts := st1.alerts ++ [alert],
                sentAlerts := mapSet st1.sentAlerts alertKey now })
        else ([], st1)
      let alerts2 := step2.1
      let st2 := step2.2
      -- SMA crossover branch
      let step3 : List Alert × AlertState :=
        if interp.smaCrossover = some "bullish" ∨ interp.smaCrossover = some "bearish" then
          let cross := interp.smaCrossover.getD ""
          let alertKey := cryptoId ++ "-sma-" ++ cross ++ "-" ++ toString (now / 3600000)
          if mapHas st2.sentAlerts alertKey then ([], st2)
          else
            let alert : Alert :=
              { crypto_id := cryptoId,
                alert_type := if cross = "bullish" then "sma_bullish_cross" else "sma_bearish_cross",
                old_value := none, new_value := none, percentage_change := none,
                severity := "medium" }
            ([alert],
              { alerts := st2.alerts ++ [alert],
                sentAlerts := mapSet st2.sentAlerts alertKey now })
        else ([], st2)
      let alerts3 := step3.1
      let st3 := step3.2
      -- strong overall signal branch
      let step4 : List Alert × AlertState :=
        if (7 : ℚ)/10 ≤ interp.overallStrength ∧
            (interp.overallSignal = "buy" ∨ interp.overallSignal = "sell") then
          let sig := interp.overallSignal
          let alertKey := cryptoId ++ "-overall-" ++ sig ++ "-" ++ toString (now / 3600000)
          if mapHas st3.sentAlerts alertKey then ([], st3)
          else
            let alert : Alert :=
              { crypto_id := cryptoId,
                alert_type := if sig = "buy" then "strong_buy_signal" else "strong_sell_signal",
                old_value := none, new_value := none, percentage_change := none,
                severity := "high" }
            ([alert],
              { alerts := st3.alerts ++ [alert],
                sentAlerts := mapSet st3.sentAlerts alertKey now })
        else ([], st3)
      (alerts1 ++ alerts2 ++ alerts3 ++ step4.1, step4.2)

end alertService

/-! ## Fetch client (coingecko.js) -/

namespace coinGecko

def API_PROXIES : List String :=
  ["https://api.coingecko.com/api/v3",
   "https://coingecko.p.rapidapi.com/api/v3",
   "https://api.coincap.io/v2"]

structure RetryConfig where
  maxRetries : ℕ
  baseDelay : ℚ
  backoffFactor : ℚ

def retryConfig : RetryConfig := ⟨5, 2000, 2⟩

/-- The service state visible to `getApiUrl`/`executeWithRetry`:
configured base URL (empty string = falsy), current proxy index and the
rate-limiter counters. -/
structure ServiceState where
  baseUrl : String
  currentProxyIndex : ℕ
  requestCount : ℕ
  requestLimit : ℕ
deriving DecidableEq

/-- `getApiUrl`: `this.baseUrl || API_PROXIES[this.currentProxyIndex]`. -/
def getApiUrl (st : ServiceState) : String :=
  if st.baseUrl ≠ "" then st.baseUrl else API_PROXIES.getD st.currentProxyIndex ""

/-- `switchToNextProxy`. -/
def switchToNextProxy (st : ServiceState) : ServiceState :=
  { st with currentProxyIndex := (st.currentProxyIndex + 1) % API_PROXIES.length }

/-- The outcome of one provider call attempt: a (non-null) payload, or a
thrown error carrying the optional `error.response.status`. -/
inductive Outcome (α : Type) where
  | success (v : α)
  | failure (status : Option ℕ)

/-- The observable trace of one `executeWithRetry` run: the overall result
(`Except` error status), the state after the run, the API URL visible to the
provider call at each attempt, and the backoff delays awaited between
attempts. -/
structure RetryResult (α : Type) where
  result : Except (Option ℕ) α
  finalState : ServiceState
  attemptUrls : List String
  delays : List ℚ

/-- The retry loop body of `executeWithRetry`; `retryCount` counts failures so
far and doubles as the attempt index, `fuel` bounds the remaining loop
iterations (the source loop runs while `retryCount <= maxRetries`). -/
def executeWithRetryGo {α : Type} (outcomes : ℕ → Outcome α) (maxRetries : ℕ) :
    ℕ → ServiceState → ℕ → List String → List ℚ → RetryResult α
  | 0, st, _, urls, delays => ⟨.error none, st, urls, delays⟩
  | fuel + 1, st, retryCount, urls, delays =>
    let urls := urls ++ [getApiUrl st]
    match outcomes retryCount with
    | .success v =>
      -- `incrementRequestCount()` then cache update and return
      ⟨.ok v, { st with requestCount := st.requestCount + 1 }, urls, delays⟩
    | .failure status =>
      if status = some 404 then ⟨.error status, st, urls, delays⟩
      else if maxRetries < retryCount + 1 then ⟨.error status, st, urls, delays⟩
      else
        let delay := retryConfig.baseDelay * retryConfig.backoffFactor ^ (retryCount + 1 - 1)
        executeWithRetryGo outcomes maxRetries fuel st (retryCount + 1) urls
          (delays ++ [delay])

/-- `executeWithRetry` (the retry path actually used by the effective
`executeApiCall`): up to `maxRetries` retries with exponential backoff,
no retry on a 404 status, and (notably) no proxy switching. -/
def executeWithRetry {α : Type} (outcomes : ℕ → Outcome α) (st : ServiceState) :
    RetryResult α :=
  executeWithRetryGo outcomes retryConfig.maxRetries (retryConfig.maxRetries + 1) st 0 [] []

/-- One entry of the fetch client's `cache` object: whether `.data` is truthy,
the fetch timestamp, and the TTL. -/
structure CacheEntry where
  dataTruthy : Bool
  timestamp : Option ℕ
  ttl : ℕ
deriving DecidableEq

/-- The `cache` object with its three fixed keys. -/
structure Cache where
  marketData : CacheEntry
  detailedData : CacheEntry
  historicalData : CacheEntry
deriving DecidableEq

/-- JS property lookup `this.cache[cacheKey]`: `undefined` (`none`) for a
missing key or for an omitted (`undefined`) argument. -/
def cacheLookup (c : Cache) (cacheKey : Option String) : Option CacheEntry :=
  match cacheKey with
  | none => none
  | some s =>
    if s = "marketData" then some c.marketData
    else if s = "detailedData" then some c.detailedData
    else if s = "historicalData" then some c.historicalData
    else none

/-- The result of the (effective, second-defined) `executeApiCall`. -/
inductive ApiResult (α : Type) where
  | ok (v : α)
  | cached
  | queued
  | thrown (status : Option ℕ)
  | typeError

/-- Observable trace of one `executeApiCall` invocation: its result, the
resulting service state, how many provider-call attempts were issued, and
whether the rate-limit check (`canMakeRequest`) was reached. -/
structure ApiCallTrace (α : Type) where
  result : ApiResult α
  finalState : ServiceState
  providerCalls : ℕ
  rateLimitChecked : Bool

/-- The effective (second-defined) `executeApiCall(apiCallFn, cacheKey)`:
dereferences `this.cache[cacheKey].data` first — a `TypeError` when the key is
unknown or omitted — then serves a fresh cache hit, then either runs
`executeWithRetry` (when under the rate limit) or queues the request. -/
def executeApiCall {α : Type} (st : ServiceState) (cache : Cache) (now : ℕ)
    (cacheKey : Option String) (outcomes : ℕ → Outcome α) : ApiCallTrace α :=
  match cacheLookup cache cacheKey with
  | none => ⟨.typeError, st, 0, false⟩
  | some entry =>
    let fresh := entry.dataTruthy &&
      (match entry.timestamp with
       | some ts => decide (now - ts < entry.ttl)
       | none => false)
    if fresh then ⟨.cached, st, 0, false⟩
    else if st.requestCount < st.requestLimit then
      let r := executeWithRetry outcomes st
      ⟨(match r.result with | .ok v => .ok v | .error s => .thrown s),
        r.finalState, r.attemptUrls.length, true⟩
    else ⟨.queued, st, 0, true⟩

/-- The per-coin provider call inside `fetchDetailedData`: invoked as
`this.executeApiCall(apiCall)`, i.e. with the `cacheKey` argument omitted. -/
def fetchDetailedDataCoinCall {α : Type} (st : ServiceState) (cache : Cache)
    (now : ℕ) (outcomes : ℕ → Outcome α) : ApiCallTrace α :=
  executeApiCall st cache now none outcomes

/-- The provider call inside `fetchHistoricalData`: `cacheKey` omitted. -/
def fetchHistoricalDataCall {α : Type} (st : ServiceState) (cache : Cache)
    (now : ℕ) (outcomes : ℕ → Outcome α) : ApiCallTrace α :=
  executeApiCall st cache now none outcomes

/-- The provider call inside `getCoinById`: `cacheKey` omitted. -/
def getCoinByIdCall {α : Type} (st : ServiceState) (cache : Cache)
    (now : ℕ) (outcomes : ℕ → Outcome α) : ApiCallTrace α :=
  executeApiCall st cache now none outcomes

end coinGecko

/-! ## Forecast ensemble (pricePrediction.js)

JS numbers are idealized as reals here because the autoregression
normalization uses `Math.sqrt`. -/

namespace pricePrediction

/-- The state of a `LinearRegression` instance. -/
structure LRModel where
  alpha : ℝ
  beta : ℝ
  trained : Bool

/-- `LinearRegression.train`: closed-form ordinary least squares of `y`
against `x`. -/
noncomputable def linearRegressionTrain (x y : List ℝ) : Except String LRModel :=
  if x.length ≠ y.length ∨ x.length = 0 then .error "bad input"
  else
    let n : ℝ := x.length
    let sumX := x.sum
    let sumY := y.sum
    let sumXY := ((x.zip y).map (fun p => p.1 * p.2)).sum
    let sumX2 := (x.map (fun v => v * v)).sum
    let denominator := n * sumX2 - sumX * sumX
    if denominator = 0 then .error "division by zero"
    else
      let beta := (n * sumXY - sumX * sumY) / denominator
      .ok { alpha := (sumY - beta * sumX) / n, beta := beta, trained := true }

/-- `LinearRegression.predict` on a list of inputs. -/
noncomputable def linearRegressionPredict (m : LRModel) (xs : List ℝ) :
    Except String (List ℝ) :=
  if m.trained = false then .error "not trained"
  else .ok (xs.map (fun xi => m.alpha + m.beta * xi))

/-- The state of an `ExponentialSmoothing` instance
(smoothing constants default to `α = 0.3`, `β = 0.1`). -/
structure ESModel where
  alpha : ℝ
  beta : ℝ
  level : Option ℝ
  trend : Option ℝ

def initialESModel : ESModel := ⟨0.3, 0.1, none, none⟩

/-- One iteration of the `ExponentialSmoothing.fit` loop: the level/trend
update for one observation. -/
noncomputable def exponentialSmoothingStep (m : ESModel) (lt : ℝ × ℝ)
    (di : ℝ) : ℝ × ℝ :=
  let oldLevel := lt.1
  let newLevel := m.alpha * di + (1 - m.alpha) * (oldLevel + lt.2)
  (newLevel, m.beta * (newLevel - oldLevel) + (1 - m.beta) * lt.2)

/-- `ExponentialSmoothing.fit`: initialization (level = first value, trend =
mean consecutive difference) followed by the level/trend update for every
observation after the first. -/
noncomputable def exponentialSmoothingFit (m : ESModel) (data : List ℝ) :
    Except String ESModel :=
  if data.length < 2 then .error "need at least two values"
  else
    let level0 := data.headD 0
    let trend0 := ((data.zip data.tail).map (fun p => p.2 - p.1)).sum /
      ((data.length : ℝ) - 1)
    let lt := data.tail.foldl (exponentialSmoothingStep m) (level0, trend0)
    .ok { m with level := some lt.1, trend := some lt.2 }

/-- `ExponentialSmoothing.forecast`: `level + k·trend` for step `k`, floored
at 0. -/
noncomputable def exponentialSmoothingForecast (m : ESModel) (steps : ℕ) :
    Except String (List ℝ) :=
  match m.level, m.trend with
  | some level, some trend =>
    .ok ((List.range steps).map (fun (i : ℕ) => max 0 (level + ((i : ℝ) + 1) * trend)))
  | _, _ => .error "not fitted"

/-- The state of an `AutoRegression` instance (default order 3);
`normalization` stores the training mean and scale factor. -/
structure ARModel where
  order : ℕ
  coefficients : List ℝ
  intercept : ℝ
  normalization : Option (ℝ × ℝ)

def initialARModel : ARModel := ⟨3, [], 0, none⟩

/-- `AutoRegression.createLagMatrix`: row `i` holds the `order` values
preceding observation `i`, most recent first. -/
def createLagMatrix (order : ℕ) (data : List ℝ) : List (List ℝ) × List ℝ :=
  ((List.range (data.length - order)).map (fun k =>
      (List.range order).map (fun j => data.getD (k + order - (j + 1)) 0)),
   (List.range (data.length - order)).map (fun k => data.getD (k + order) 0))

/-- Matrix cell access `m[i][j]` (0 outside the matrix, like the sums the
source computes with `undefined` treated as absent rows never occur on
reachable inputs). -/
def getCell (m : List (List ℝ)) (i j : ℕ) : ℝ := (m.getD i []).getD j 0

/-- Partial pivoting: the index (at or below row `i`) of the largest
absolute entry in column `i`. -/
noncomputable def pivotRow (p : ℕ) (m : List (List ℝ)) (i : ℕ) : ℕ :=
  ((List.range p).drop (i + 1)).foldl
    (fun mr j => if |getCell m mr i| < |getCell m j i| then j else mr) i

/-- The row exchange of the partial-pivoting step. -/
def swapRows (m : List (List ℝ)) (i maxRow : ℕ) : List (List ℝ) :=
  if maxRow ≠ i then (m.set i (m.getD maxRow [])).set maxRow (m.getD i []) else m

/-- The near-singularity bump: add `1e-5` to a pivot smaller than `1e-10`. -/
noncomputable def bumpPivot (m1 : List (List ℝ)) (i : ℕ) : List (List ℝ) :=
  let pivot := getCell m1 i i
  if |pivot| < 1e-10 then m1.set i ((m1.getD i []).set i (pivot + 1e-5)) else m1

/-- The source's *in-place* row normalization `m[i][j] /= m[i][i]` for
`j = i … p`: the `j = i` iteration sets the pivot cell to 1 first, so the
remaining entries of the row are divided by the already-updated pivot. -/
noncomputable def normalizeRow (p : ℕ) (m2 : List (List ℝ)) (i : ℕ) :
    List (List ℝ) :=
  ((List.range (p + 1)).drop i).foldl
    (fun acc j => acc.set i ((acc.getD i []).set j (getCell acc i j / getCell acc i i)))
    m2

/-- Elimination of column `i` from every row other than `i`
(`m[j][k] -= factor * m[i][k]` for `k = i … p`). -/
noncomputable def eliminateOthers (p : ℕ) (m3 : List (List ℝ)) (i : ℕ) :
    List (List ℝ) :=
  m3.mapIdx (fun j row =>
    if j = i then row
    else
      let factor := row.getD i 0
      row.mapIdx (fun k v => if i ≤ k ∧ k ≤ p then v - factor * getCell m3 i k else v))

/-- One column step of the source's Gauss–Jordan loop on the augmented
matrix: partial pivoting, near-singularity bump of the pivot, the in-place
row normalization, and elimination of column `i` from every other row. -/
noncomputable def elimStep (p : ℕ) (m : List (List ℝ)) (i : ℕ) : List (List ℝ) :=
  eliminateOthers p (normalizeRow p (bumpPivot (swapRows m i (pivotRow p m i)) i) i) i

/-- The regularized augmented matrix `[XᵀX + λI | Xᵀy]` built by
`ordinaryLeastSquares` (`λ = 1e-6`). -/
noncomputable def olsAugmented (Xw : List (List ℝ)) (y : List ℝ) (n p : ℕ) :
    List (List ℝ) :=
  let lambda : ℝ := 1e-6
  let XTX0 := (List.range p).map (fun i => (List.range p).map (fun j =>
    ((List.range n).map (fun k => getCell Xw k i * getCell Xw k j)).sum))
  let XTy := (List.range p).map (fun i =>
    ((List.range n).map (fun k => getCell Xw k i * y.getD k 0)).sum)
  let XTX := XTX0.mapIdx (fun i row =>
    row.mapIdx (fun j v => if i = j then v + lambda else v))
  XTX.mapIdx (fun i row => row ++ [XTy.getD i 0])

/-- The solution column read off after the Gauss–Jordan loop. -/
noncomputable def olsSolution (Xw : List (List ℝ)) (y : List ℝ) (n p : ℕ) :
    List ℝ :=
  ((List.range p).foldl (elimStep p) (olsAugmented Xw y n p)).map
    (fun row => row.getD p 0)

/-- `AutoRegression.ordinaryLeastSquares` with ridge regularization `1e-6`.
An empty feature matrix makes the source throw (reading `X[0].length`, and
again inside its own catch handler), so that case is an error. -/
noncomputable def ordinaryLeastSquares (X : List (List ℝ)) (y : List ℝ) :
    Except String (ℝ × List ℝ) :=
  if X = [] then .error "TypeError"
  else
    let Xw := X.map (fun row => 1 :: row)
    let n := Xw.length
    let p := (Xw.headD []).length
    let solution := olsSolution Xw y n p
    .ok (solution.headD 0, solution.drop 1)

/-- `AutoRegression.fit`: order reduction on short data, zero-mean/unit-scale
normalization (scale 1 when the standard deviation is ≤ 1e-10), lag matrix and
OLS. -/
noncomputable def autoRegressionFit (m : ARModel) (data : List ℝ) :
    Except String ARModel :=
  let order := if data.length ≤ m.order then max 1 (data.length / 3) else m.order
  let mean := data.sum / (data.length : ℝ)
  let std := Real.sqrt ((data.map (fun v => (v - mean) ^ 2)).sum / (data.length : ℝ))
  let scaleFactor := if (1e-10 : ℝ) < std then std else 1
  let normalizedData := data.map (fun v => (v - mean) / scaleFactor)
  let Xy := createLagMatrix order normalizedData
  match ordinaryLeastSquares Xy.1 Xy.2 with
  | .error e => .error e
  | .ok ic =>
    .ok { order := order, coefficients := ic.2, intercept := ic.1,
          normalization := some (mean, scaleFactor) }

/-- The iteration of `AutoRegression.forecast`: predict from the `order` most
recent (normalized) values, feed the normalized prediction back as the newest
lag, denormalize, floor at 0. -/
noncomputable def autoRegressionForecastGo (m : ARModel) :
    ℕ → List ℝ → List ℝ
  | 0, _ => []
  | steps + 1, lastValues =>
    let prediction := m.intercept +
      ((List.range m.order).map
        (fun j => m.coefficients.getD j 0 * lastValues.getD j 0)).sum
    let nextValues := prediction :: lastValues.dropLast
    let denorm := match m.normalization with
      | some ms => prediction * ms.2 + ms.1
      | none => prediction
    max 0 denorm :: autoRegressionForecastGo m steps nextValues

/-- `AutoRegression.forecast`. -/
noncomputable def autoRegressionForecast (m : ARModel) (history : List ℝ)
    (steps : ℕ) : Except String (List ℝ) :=
  if m.coefficients.length = 0 then .error "not trained"
  else if history.length < m.order then .error "need more values"
  else
    let normalizedHistory := match m.normalization with
      | some ms => history.map (fun v => (v - ms.1) / ms.2)
      | none => history
    .ok (autoRegressionForecastGo m steps
      ((normalizedHistory.drop (normalizedHistory.length - m.order)).reverse))

/-- The ensemble's weight record. -/
structure Weights where
  linearRegression : ℝ
  exponentialSmoothing : ℝ
  autoRegression : ℝ

def Weights.total (w : Weights) : ℝ :=
  w.linearRegression + w.exponentialSmoothing + w.autoRegression

/-- The default 30/30/40 weights. -/
noncomputable def initialWeights : Weights := ⟨0.3, 0.3, 0.4⟩

/-- The weight redistribution performed when the exponential-smoothing
predictor fails: its weight is split equally between the other two. -/
noncomputable def dropExponentialSmoothing (w : Weights) : Weights :=
  { linearRegression := w.linearRegression + w.exponentialSmoothing / 2,
    exponentialSmoothing := 0,
    autoRegression := w.autoRegression + w.exponentialSmoothing / 2 }

/-- Weight redistribution when the autoregression predictor fails. -/
noncomputable def dropAutoRegression (w : Weights) : Weights :=
  { linearRegression := w.linearRegression + w.autoRegression / 2,
    exponentialSmoothing := w.exponentialSmoothing + w.autoRegression / 2,
    autoRegression := 0 }

/-- Weight redistribution when the linear-regression predictor fails. -/
noncomputable def dropLinearRegression (w : Weights) : Weights :=
  { linearRegression := 0,
    exponentialSmoothing := w.exponentialSmoothing + w.linearRegression / 2,
    autoRegression := w.autoRegression + w.linearRegression / 2 }

/-- The effect of `ModelEnsemble.trainAll` on the weights, indexed by which
training steps throw. A linear-regression training failure installs a fallback
model and does *not* touch the weights; exponential-smoothing and
autoregression training failures redistribute. -/
noncomputable def trainAllWeights (w : Weights) (esFails arFails : Bool) : Weights :=
  let w1 := if esFails then dropExponentialSmoothing w else w
  if arFails then dropAutoRegression w1 else w1

/-- The effect of `ModelEnsemble.forecast` on the weights, indexed by which
prediction steps throw (applied in the source's order: linear regression,
exponential smoothing, autoregression). -/
noncomputable def forecastWeights (w : Weights) (lrFails esFails arFails : Bool) :
    Weights :=
  let w1 := if lrFails then dropLinearRegression w else w
  let w2 := if esFails then dropExponentialSmoothing w1 else w1
  if arFails then dropAutoRegression w2 else w2

/-- A `ModelEnsemble` instance. -/
structure Ensemble where
  linearRegression : LRModel
  exponentialSmoothing : ESModel
  autoRegression : ARModel
  weights : Weights

noncomputable def initialEnsemble : Ensemble :=
  ⟨⟨0, 0, false⟩, initialESModel, initialARModel, initialWeights⟩

/-- `ModelEnsemble.trainAll`: requires at least 10 observations, trains the
three predictors, installing a fallback linear model or redistributing weights
on per-model failure. -/
noncomputable def trainAll (ens : Ensemble) (data : List ℝ) :
    Except String Ensemble :=
  if data.length < 10 then .error "need at least 10 values"
  else
    let x := (List.range data.length).map (fun (i : ℕ) => (i : ℝ))
    let ens1 := match linearRegressionTrain x data with
      | .ok m => { ens with linearRegression := m }
      | .error _ =>
        { ens with linearRegression :=
            { alpha := data.headD 0,
              beta := (data.getLastD 0 - data.headD 0) / (data.length : ℝ),
              trained := true } }
    let ens2 := match exponentialSmoothingFit ens1.exponentialSmoothing data with
      | .ok m => { ens1 with exponentialSmoothing := m }
      | .error _ => { ens1 with weights := dropExponentialSmoothing ens1.weights }
    let ens3 := match autoRegressionFit ens2.autoRegression data with
      | .ok m => { ens2 with autoRegression := m }
      | .error _ => { ens2 with weights := dropAutoRegression ens2.weights }
    .ok ens3

/-- `ModelEnsemble.forecast`: per-model predictions with weight
redistribution on failure, the all-failed flat fallback, optional weight
normalization, and the per-step weighted combination floored at 0. -/
noncomputable def ensembleForecast (ens : Ensemble) (history : List ℝ)
    (steps : ℕ) : List ℝ × Ensemble :=
  let lastX : ℝ := (history.length : ℝ) - 1
  let forecastX := (List.range steps).map (fun (i : ℕ) => lastX + (i : ℝ) + 1)
  let lp : List ℝ × Weights :=
    match linearRegressionPredict ens.linearRegression forecastX with
    | .ok preds => (preds, ens.weights)
    | .error _ => ([], dropLinearRegression ens.weights)
  let linearPredictions := lp.1
  let ep : List ℝ × Weights :=
    match exponentialSmoothingForecast ens.exponentialSmoothing steps with
    | .ok preds => (preds, lp.2)
    | .error _ => ([], dropExponentialSmoothing lp.2)
  let exponentialPredictions := ep.1
  let ap : List ℝ × Weights :=
    match autoRegressionForecast ens.autoRegression history steps with
    | .ok preds => (preds, ep.2)
    | .error _ => ([], dropAutoRegression ep.2)
  let autoPredictions := ap.1
  let w3 := ap.2
  let sumWeights := w3.total
  if sumWeights < 0.001 then
    let lastValues := history.drop (history.length - 5)
    let avgValue := lastValues.sum / (lastValues.length : ℝ)
    (List.replicate steps avgValue, { ens with weights := w3 })
  else
    let w4 :=
      if 0.001 < |sumWeights - 1| then
        ⟨w3.linearRegression / sumWeights, w3.exponentialSmoothing / sumWeights,
          w3.autoRegression / sumWeights⟩
      else w3
    let preds := (List.range steps).map (fun i =>
      let c1 : ℝ × ℝ :=
        if 0 < w4.linearRegression ∧ i < linearPredictions.length then
          (w4.linearRegression * linearPredictions.getD i 0, w4.linearRegression)
        else (0, 0)
      let c2 : ℝ × ℝ :=
        if 0 < w4.exponentialSmoothing ∧ i < exponentialPredictions.length then
          (w4.exponentialSmoothing * exponentialPredictions.getD i 0,
            w4.exponentialSmoothing)
        else (0, 0)
      let c3 : ℝ × ℝ :=
        if 0 < w4.autoRegression ∧ i < autoPredictions.length then
          (w4.autoRegression * autoPredictions.getD i 0, w4.autoRegression)
        else (0, 0)
      let weightedSum := c1.1 + c2.1 + c3.1
      let usedWeightSum := c1.2 + c2.2 + c3.2
      let v := if 0 < usedWeightSum then weightedSum / usedWeightSum
        else history.getLastD 0
      max 0 v)
    (preds, { ens with weights := w4 })

end pricePrediction

/-! ## Correlation engine -/

namespace correlation

/-- The keys of the JS `Map` built from a time series: timestamps in first-
occurrence order, deduplicated. -/
def mapKeys (s : List (ℤ × ℚ)) : List ℤ :=
  s.foldl (fun acc p => if p.1 ∈ acc then acc else acc ++ [p.1]) []

/-- `Map.prototype.get`: the value of the *last* entry with the given key
(later `Map` entries overwrite earlier ones). -/
def mapGet (s : List (ℤ × ℚ)) (t : ℤ) : ℚ :=
  ((s.reverse.find? (fun p => p.1 == t)).map Prod.snd).getD 0

/-- `alignTimeSeries`: the common timestamps (in the first series' key order)
and the two aligned price vectors. -/
def alignTimeSeries (series1 series2 : List (ℤ × ℚ)) : List ℚ × List ℚ :=
  let commonTimestamps :=
    (mapKeys series1).filter (fun ts => ts ∈ series2.map Prod.fst)
  (commonTimestamps.map (mapGet series1), commonTimestamps.map (mapGet series2))

/-- The numerator and the two denominator sums of the Pearson formula over the
aligned vectors. -/
def pearsonSums (series1 series2 : List (ℤ × ℚ)) : ℚ × ℚ × ℚ :=
  let aligned := alignTimeSeries series1 series2
  let prices1 := aligned.1
  let prices2 := aligned.2
  let mean1 : ℚ := prices1.sum / prices1.length
  let mean2 : ℚ := prices2.sum / prices2.length
  let pairs := prices1.zip prices2
  (((pairs.map (fun p => (p.1 - mean1) * (p.2 - mean2))).sum),
   ((pairs.map (fun p => (p.1 - mean1) * (p.1 - mean1))).sum),
   ((pairs.map (fun p => (p.2 - mean2) * (p.2 - mean2))).sum))

/-- `parseFloat(x.toFixed(4))`: rounding to four decimal places. -/
noncomputable def roundTo4 (x : ℝ) : ℝ := (⌊x * 10000 + 1 / 2⌋ : ℝ) / 10000

/-- `calculatePearsonCorrelation`: 0 with fewer than two aligned points or a
zero variance on either side, otherwise the rounded Pearson coefficient. -/
noncomputable def calculatePearsonCorrelation (series1 series2 : List (ℤ × ℚ)) : ℝ :=
  if (alignTimeSeries series1 series2).1.length < 2 then 0
  else
    let nd := pearsonSums series1 series2
    if nd.2.1 = 0 ∨ nd.2.2 = 0 then 0
    else roundTo4 ((nd.1 : ℝ) / (Real.sqrt (nd.2.1 : ℝ) * Real.sqrt (nd.2.2 : ℝ)))

/-- The degeneracy condition under which the spec defines the correlation to
be 0: fewer than 2 aligned points, or zero variance in either aligned
series. -/
def degeneratePair (series1 series2 : List (ℤ × ℚ)) : Prop :=
  (alignTimeSeries series1 series2).1.length < 2 ∨
    (pearsonSums series1 series2).2.1 = 0 ∨ (pearsonSums series1 series2).2.2 = 0

instance (series1 series2 : List (ℤ × ℚ)) : Decidable (degeneratePair series1 series2) := by
  unfold degeneratePair; infer_instance

/-- The assignments `result.correlations[·][·] = ·` performed by the outer-loop
iteration for `c1` against the remaining ids `rest`: the self-correlation 1
followed by the two symmetric writes for each later id. -/
noncomputable def pairWrites (c1 : String × List (ℤ × ℚ))
    (rest : List (String × List (ℤ × ℚ))) : List (String × String × ℝ) :=
  (c1.1, c1.1, 1) ::
    rest.flatMap (fun c2 =>
      let correlation := calculatePearsonCorrelation c1.2 c2.2
      [(c1.1, c2.1, correlation), (c2.1, c1.1, correlation)])

/-- `calculateCorrelationMatrix` as its chronological list of object
assignments (`i` outer loop, `j = i+1 …` inner loop). -/
noncomputable def calculateCorrelationMatrix :
    List (String × List (ℤ × ℚ)) → List (String × String × ℝ)
  | [] => []
  | c :: rest => pairWrites c rest ++ calculateCorrelationMatrix rest

/-- Reading `result.correlations[a][b]` back from the assignment list: the
value of the last write to that cell, if any. -/
noncomputable def getCorr (writes : List (String × String × ℝ)) (a b : String) :
    Option ℝ :=
  (writes.reverse.find? (fun w => w.1 == a && w.2.1 == b)).map (fun w => w.2.2)

end correlation

/-! ## Theorems -/

section Theorems

open technicalAnalysis alertService coinGecko pricePrediction correlation

/-! ### C2: ensemble weights sum to 1 after any subset of failures -/

theorem dropES_total (w : Weights) :
    (dropExponentialSmoothing w).total = w.total := by
  simp only [dropExponentialSmoothing, Weights.total]; ring

theorem dropAR_total (w : Weights) :
    (dropAutoRegression w).total = w.total := by
  simp only [dropAutoRegression, Weights.total]; ring

theorem dropLR_total (w : Weights) :
    (dropLinearRegression w).total = w.total := by
  simp only [dropLinearRegression, Weights.total]; ring

theorem trainAllWeights_total (w : Weights) (e a : Bool) :
    (trainAllWeights w e a).total = w.total := by
  cases e <;> cases a <;>
    simp [trainAllWeights, dropES_total, dropAR_total]

theorem forecastWeights_total (w : Weights) (l e a : Bool) :
    (forecastWeights w l e a).total = w.total := by
  cases l <;> cases e <;> cases a <;>
    simp [forecastWeights, dropES_total, dropAR_total, dropLR_total]

/-- C2: for every run of the ensemble (training then forecasting) and every
subset of the three predictors whose training or prediction step fails, the
three ensemble weights sum to 1 after the failed predictors' weights have been
redistributed — in particular when all three predictors fail. -/
theorem ensemble_weights_sum_one (esTrainFails arTrainFails lrFails esFails
    arFails : Bool) :
    (forecastWeights (trainAllWeights initialWeights esTrainFails arTrainFails)
      lrFails esFails arFails).total = 1 := by
  rw [forecastWeights_total, trainAllWeights_total]
  show (0.3 : ℝ) + 0.3 + 0.4 = 1
  norm_num

/-! ### C9: the RSI indicator row is enqueued twice -/

/-- C9: whenever the RSI series yields a current value, `saveIndicators`
enqueues exactly two identical RSI insert queries for the same asset, value
and timestamp (one from the null-check's else branch and one unconditionally
after it). -/
theorem saveIndicators_enqueues_rsi_twice (results : IndicatorResults) (v : ℚ)
    (h : results.rsi.current = some v) :
    (saveIndicatorsQueries results).filter
        (fun q => q.indicator_type == "RSI") =
      [{ crypto_id := results.cryptoId, indicator_type := "RSI", value := some v,
         parameters := .rsiParams results.rsi.period results.rsi.condition,
         timestamp := results.timestamp },
       { crypto_id := results.cryptoId, indicator_type := "RSI", value := some v,
         parameters := .rsiParams results.rsi.period results.rsi.condition,
         timestamp := results.timestamp }] := by
  have hsma : ∀ (l : List SmaEntry),
      (l.flatMap (fun sma =>
        if sma.current = none then []
        else if sma.current = none then []
        else [{ crypto_id := results.cryptoId, indicator_type := "SMA",
                value := sma.current, parameters := .smaParams sma.period,
                timestamp := results.timestamp : Query }])).filter
        (fun q => q.indicator_type == "RSI") = [] := by
    intro l
    induction l with
    | nil => rfl
    | cons head tail ih =>
      by_cases hc : head.current = none <;>
        simp [List.flatMap_cons, List.filter_append, hc, ih, List.filter_cons]
  unfold saveIndicatorsQueries
  simp only [h, List.filter_append, hsma, List.nil_append]
  cases hm : results.macd.current with
  | none => simp [List.filter_cons, List.filter_nil]
  | some cur =>
    by_cases hmm : cur.MACD = none <;>
      simp [hmm, List.filter_cons, List.filter_nil, List.filter_append]

theorem saveIndicators_enqueues_rsi_twice_witness :
    ({ cryptoId := "btc", timestamp := "t0",
       sma := [⟨7, some 3⟩, ⟨25, none⟩],
       rsi := ⟨14, some 50, "neutral"⟩,
       macd := ⟨12, 26, 9, some ⟨some 1, some 2, some 3⟩, "neutral"⟩ } :
        IndicatorResults).rsi.current = some 50 ∧
    (saveIndicatorsQueries
      { cryptoId := "btc", timestamp := "t0",
        sma := [⟨7, some 3⟩, ⟨25, none⟩],
        rsi := ⟨14, some 50, "neutral"⟩,
        macd := ⟨12, 26, 9, some ⟨some 1, some 2, some 3⟩, "neutral"⟩ }).filter
        (fun q => q.indicator_type == "RSI") =
      [{ crypto_id := "btc", indicator_type := "RSI", value := some 50,
         parameters := .rsiParams 14 "neutral", timestamp := "t0" },
       { crypto_id := "btc", indicator_type := "RSI", value := some 50,
         parameters := .rsiParams 14 "neutral", timestamp := "t0" }] :=
  ⟨rfl, saveIndicators_enqueues_rsi_twice _ 50 rfl⟩

/-! ### C10: anomaly detection never divides by zero -/

theorem truthy_getD_ne_zero {x : Option ℚ} (h : truthy x = true) :
    x.getD 0 ≠ 0 := by
  cases x with
  | none => simp [truthy] at h
  | some v => simpa [truthy] using of_decide_eq_true (by simpa [truthy] using h)

/-- C10: `detectAnomalies` performs the percentage-change division only when
both the stored previous value and the incoming current value of the same
kind are truthy; every emitted anomaly has a nonzero old value (so the
division's denominator is never 0), and no anomaly of a kind is emitted when
the previous or current value of that kind is 0 or missing. -/
theorem detectAnomalies_no_div_by_zero (prevs : List (String × PrevValues))
    (coin : Coin) (prev : PrevValues)
    (hprev : (prevs.find? (fun p => p.1 == coin.id)).map Prod.snd = some prev) :
    (∀ a ∈ detectAnomalies prevs coin, a.old_value ≠ 0) ∧
    ((truthy prev.price = false ∨ truthy coin.current_price = false) →
      ∀ a ∈ detectAnomalies prevs coin, a.anomaly_type ≠ "price") ∧
    ((truthy prev.volume = false ∨ truthy coin.total_volume = false) →
      ∀ a ∈ detectAnomalies prevs coin, a.anomaly_type ≠ "volume") := by
  unfold detectAnomalies
  rw [hprev]
  refine ⟨?_, ?_, ?_⟩
  · intro a ha
    simp only [List.mem_append] at ha
    rcases ha with ha | ha
    · by_cases h1 : truthy prev.price && truthy coin.current_price
      · rw [if_pos h1] at ha
        have hp := truthy_getD_ne_zero (Bool.and_elim_left h1)
        split at ha
        · simp only [List.mem_singleton] at ha
          rw [ha]
          exact hp
        · simp at ha
      · rw [if_neg h1] at ha; simp at ha
    · by_cases h2 : truthy prev.volume && truthy coin.total_volume
      · rw [if_pos h2] at ha
        have hv := truthy_getD_ne_zero (Bool.and_elim_left h2)
        split at ha
        · simp only [List.mem_singleton] at ha
          rw [ha]
          exact hv
        · simp at ha
      · rw [if_neg h2] at ha; simp at ha
  · intro hfalse a ha
    simp only [List.mem_append] at ha
    have h1 : (truthy prev.price && truthy coin.current_price) = false := by
      rcases hfalse with h | h <;> simp [h]
    rw [h1] at ha
    simp only [Bool.false_eq_true, if_false, List.not_mem_nil, false_or] at ha
    by_cases h2 : truthy prev.volume && truthy coin.total_volume
    · rw [if_pos h2] at ha
      split at ha
      · simp only [List.mem_singleton] at ha
        rw [ha]
        simp
      · simp at ha
    · rw [if_neg h2] at ha; simp at ha
  · intro hfalse a ha
    simp only [List.mem_append] at ha
    have h2 : (truthy prev.volume && truthy coin.total_volume) = false := by
      rcases hfalse with h | h <;> simp [h]
    rw [h2] at ha
    simp only [Bool.false_eq_true, if_false, List.not_mem_nil, or_false] at ha
    by_cases h1 : truthy prev.price && truthy coin.current_price
    · rw [if_pos h1] at ha
      split at ha
      · simp only [List.mem_singleton] at ha
        rw [ha]
        simp
      · simp at ha
    · rw [if_neg h1] at ha; simp at ha

theorem detectAnomalies_no_div_by_zero_witness :
    (([(("btc" : String), (⟨some 0, some 100⟩ : PrevValues))].find?
        (fun p => p.1 == ("btc" : String))).map Prod.snd =
      some (⟨some 0, some 100⟩ : PrevValues)) ∧
    ((truthy (some 0) = false ∨
        truthy (Coin.mk "btc" (some 106) (some 100)).current_price = false) →
      ∀ a ∈ detectAnomalies [("btc", ⟨some 0, some 100⟩)]
          (Coin.mk "btc" (some 106) (some 100)), a.anomaly_type ≠ "price") :=
  ⟨by decide,
    (detectAnomalies_no_div_by_zero [("btc", ⟨some 0, some 100⟩)]
      (Coin.mk "btc" (some 106) (some 100)) ⟨some 0, some 100⟩ (by decide)).2.1⟩

/-! ### C5: MACD crossover signal vs. the interpretation's MACD vote -/

theorem qGT_qLT_exclusive (a b : Option ℚ) (h : qGT a b = true) :
    qLT a b = false := by
  cases a <;> cases b <;> simp_all [qGT, qLT]
  exact le_of_lt h

/-- C5 (amended): the crossover signal computed by `calculateMACD` fires
`buy`/`sell` exactly when the MACD line crosses the signal line between the
last two observations; but the MACD contribution to the interpretation's vote
counts does not come from that crossover signal — `interpretIndicators` votes
`buy` whenever the latest MACD line value is merely above the latest signal
value, and `sell` whenever it is merely below, irrespective of the
observation before. -/
theorem macd_crossover_vs_interpretation_vote :
    (∀ (macd : List MacdPoint) (current : MacdPoint),
      macd.getLast? = some current →
      ((macdCrossSignal macd = "buy" ↔
        (qGT current.MACD current.signal && decide (1 < macd.length) &&
          qLE (macd.getD (macd.length - 2) ⟨none, none, none⟩).MACD
            (macd.getD (macd.length - 2) ⟨none, none, none⟩).signal) = true) ∧
       (macdCrossSignal macd = "sell" ↔
        (qLT current.MACD current.signal && decide (1 < macd.length) &&
          qGE (macd.getD (macd.length - 2) ⟨none, none, none⟩).MACD
            (macd.getD (macd.length - 2) ⟨none, none, none⟩).signal) = true))) ∧
    (∀ (inp : InterpretInput) (m : MacdLatest) (line signalLine : LatestValue),
      inp.macd = some m → m.line = some line → m.signal = some signalLine →
      signalLine.value < line.value →
      (interpretIndicators inp).macdSignal = some "buy" ∧
      1 ≤ (interpretIndicators inp).buySignals) ∧
    (∀ (inp : InterpretInput) (m : MacdLatest) (line signalLine : LatestValue),
      inp.macd = some m → m.line = some line → m.signal = some signalLine →
      line.value < signalLine.value →
      (interpretIndicators inp).macdSignal = some "sell" ∧
      1 ≤ (interpretIndicators inp).sellSignals) := by
  refine ⟨?_, ?_, ?_⟩
  · intro macd current hlast
    have heq : macdCrossSignal macd =
        (if (qGT current.MACD current.signal && decide (1 < macd.length) &&
            qLE (macd.getD (macd.length - 2) ⟨none, none, none⟩).MACD
              (macd.getD (macd.length - 2) ⟨none, none, none⟩).signal) = true
          then "buy"
        else if (qLT current.MACD current.signal && decide (1 < macd.length) &&
            qGE (macd.getD (macd.length - 2) ⟨none, none, none⟩).MACD
              (macd.getD (macd.length - 2) ⟨none, none, none⟩).signal) = true
          then "sell"
        else "neutral") := by
      unfold macdCrossSignal
      rw [hlast]
    rw [heq]
    by_cases h1 : (qGT current.MACD current.signal && decide (1 < macd.length) &&
        qLE (macd.getD (macd.length - 2) ⟨none, none, none⟩).MACD
          (macd.getD (macd.length - 2) ⟨none, none, none⟩).signal) = true
    · have hGT : qGT current.MACD current.signal = true := by
        rcases Bool.and_eq_true_iff.mp h1 with ⟨h2, _⟩
        exact (Bool.and_eq_true_iff.mp h2).1
      have hLT := qGT_qLT_exclusive _ _ hGT
      rw [if_pos h1]
      exact ⟨iff_of_true rfl h1, iff_of_false (by decide) (by simp [hLT])⟩
    · rw [if_neg h1]
      by_cases h2 : (qLT current.MACD current.signal && decide (1 < macd.length) &&
          qGE (macd.getD (macd.length - 2) ⟨none, none, none⟩).MACD
            (macd.getD (macd.length - 2) ⟨none, none, none⟩).signal) = true
      · rw [if_pos h2]
        exact ⟨iff_of_false (by decide) h1, iff_of_true rfl h2⟩
      · rw [if_neg h2]
        exact ⟨iff_of_false (by decide) h1, iff_of_false (by decide) h2⟩
  · intro inp m line signalLine hm hline hsig hlt
    constructor
    · simp [interpretIndicators, hm, hline, hsig, hlt]
    · simp only [interpretIndicators, hm, hline, hsig, hlt]
      simp only [if_true, ite_true]
      omega
  · intro inp m line signalLine hm hline hsig hlt
    have hnlt : ¬ signalLine.value < line.value := lt_asymm hlt
    constructor
    · simp [interpretIndicators, hm, hline, hsig, hlt, hnlt]
    · simp only [interpretIndicators, hm, hline, hsig, hlt, hnlt]
      simp only [if_false, ite_false, if_true, ite_true]
      omega

/-- C5 counterexample: on the MACD series `[(1,0), (2,1)]` the line is above
the signal at both of the last two observations, so no crossover fires
(`calculateMACD` reports `neutral`) — yet the interpretation of the
corresponding latest values still counts a MACD `buy` vote. -/
theorem macd_vote_without_crossover :
    macdCrossSignal [⟨some 1, some 0, none⟩, ⟨some 2, some 1, none⟩] = "neutral" ∧
    (interpretIndicators ⟨[], none, some ⟨some ⟨2⟩, some ⟨1⟩, none⟩⟩).macdSignal =
      some "buy" ∧
    (interpretIndicators ⟨[], none, some ⟨some ⟨2⟩, some ⟨1⟩, none⟩⟩).buySignals = 1 := by
  refine ⟨by decide, ?_, ?_⟩ <;> decide

/-! ### C8: executeApiCall with an unknown/omitted cache key -/

/-- C8: every call to the effective (second-defined) `executeApiCall` whose
`cacheKey` is not one of the three cache keys — including every call that
omits the argument, as `fetchDetailedData`, `fetchHistoricalData` and
`getCoinById` do — throws a `TypeError` while dereferencing the undefined
cache entry, before the rate-limit check and before any provider call, and
leaves the service state untouched. -/
theorem executeApiCall_unknown_key_typeError {α : Type} (st : ServiceState)
    (cache : Cache) (now : ℕ) (cacheKey : Option String)
    (outcomes : ℕ → Outcome α)
    (h : cacheKey ∉ [some "marketData", some "detailedData", some "historicalData"]) :
    executeApiCall st cache now cacheKey outcomes = ⟨.typeError, st, 0, false⟩ ∧
    fetchDetailedDataCoinCall st cache now outcomes = ⟨.typeError, st, 0, false⟩ ∧
    fetchHistoricalDataCall st cache now outcomes = ⟨.typeError, st, 0, false⟩ ∧
    getCoinByIdCall st cache now outcomes = ⟨.typeError, st, 0, false⟩ := by
  have hnone : ∀ (k : Option String),
      k ∉ [some "marketData", some "detailedData", some "historicalData"] →
      cacheLookup cache k = none := by
    intro k hk
    match k with
    | none => rfl
    | some s =>
      simp only [List.mem_cons, List.not_mem_nil, or_false] at hk
      push_neg at hk
      obtain ⟨h1, h2, h3⟩ := hk
      simp only [cacheLookup]
      rw [if_neg (by simpa using h1), if_neg (by simpa using h2),
        if_neg (by simpa using h3)]
  have hmain : ∀ (k : Option String),
      k ∉ [some "marketData", some "detailedData", some "historicalData"] →
      executeApiCall st cache now k outcomes = ⟨.typeError, st, 0, false⟩ := by
    intro k hk
    unfold executeApiCall
    rw [hnone k hk]
  exact ⟨hmain _ h, hmain none (by decide), hmain none (by decide),
    hmain none (by decide)⟩

theorem executeApiCall_unknown_key_typeError_witness :
    ((some "bogus" : Option String) ∉
      [some "marketData", some "detailedData", some "historicalData"]) ∧
    executeApiCall ⟨"https://api.coingecko.com/api/v3", 0, 0, 40⟩
      ⟨⟨false, none, 60000⟩, ⟨false, none, 300000⟩, ⟨false, none, 3600000⟩⟩
      0 (some "bogus") (fun _ => Outcome.success (0 : ℕ)) =
      ⟨.typeError, ⟨"https://api.coingecko.com/api/v3", 0, 0, 40⟩, 0, false⟩ :=
  ⟨by decide,
    (executeApiCall_unknown_key_typeError _ _ _ _ _ (by decide)).1⟩

/-! ### C3: retry schedule, 404 handling and (absence of) provider failover -/

theorem delays_range_shift (b f : ℚ) (c n : ℕ) (delays : List ℚ) :
    (delays ++ [b * f ^ c]) ++ (List.range n).map (fun i => b * f ^ (c + 1 + i)) =
    delays ++ (List.range (n + 1)).map (fun i => b * f ^ (c + i)) := by
  have htail : (List.range n).map (fun i => b * f ^ (c + 1 + i)) =
      (List.range n).map ((fun i => b * f ^ (c + i)) ∘ Nat.succ) := by
    apply List.map_congr_left
    intro i _
    simp only [Function.comp_apply]
    congr 2
    omega
  rw [List.range_succ_eq_map, List.map_cons, List.map_map, List.append_assoc,
    List.singleton_append, ← htail]
  simp

theorem executeWithRetryGo_trace {α : Type} (outcomes : ℕ → Outcome α)
    (maxR : ℕ) :
    ∀ (fuel c : ℕ) (st : ServiceState) (urls : List String) (delays : List ℚ),
      c + fuel = maxR + 1 → 1 ≤ fuel →
      ∃ k, 1 ≤ k ∧
        (executeWithRetryGo outcomes maxR fuel st c urls delays).attemptUrls =
          urls ++ List.replicate k (getApiUrl st) ∧
        (executeWithRetryGo outcomes maxR fuel st c urls delays).delays =
          delays ++ (List.range (k - 1)).map
            (fun i => retryConfig.baseDelay * retryConfig.backoffFactor ^ (c + i)) ∧
        (executeWithRetryGo outcomes maxR fuel st c urls
          delays).finalState.currentProxyIndex = st.currentProxyIndex ∧
        (executeWithRetryGo outcomes maxR fuel st c urls
          delays).finalState.baseUrl = st.baseUrl := by
  intro fuel
  induction fuel with
  | zero => intro c st urls delays _ h1; omega
  | succ m ih =>
    intro c st urls delays hf _
    simp only [executeWithRetryGo]
    cases houtcome : outcomes c with
    | success v =>
      exact ⟨1, le_refl 1, by simp, by simp, rfl, rfl⟩
    | failure status =>
      dsimp only
      by_cases h404 : status = some 404
      · rw [if_pos h404]
        exact ⟨1, le_refl 1, by simp, by simp, rfl, rfl⟩
      · rw [if_neg h404]
        by_cases hmax : maxR < c + 1
        · rw [if_pos hmax]
          exact ⟨1, le_refl 1, by simp, by simp, rfl, rfl⟩
        · rw [if_neg hmax]
          have hm1 : 1 ≤ m := by omega
          obtain ⟨k, hk1, hurls, hdelays, hproxy, hbase⟩ :=
            ih (c + 1) st (urls ++ [getApiUrl st])
              (delays ++ [retryConfig.baseDelay *
                retryConfig.backoffFactor ^ (c + 1 - 1)])
              (by omega) hm1
          refine ⟨k + 1, by omega, ?_, ?_, hproxy, hbase⟩
          · rw [hurls, List.append_assoc]
            congr 1
          · rw [hdelays]
            obtain ⟨n, rfl⟩ : ∃ n, k = n + 1 := ⟨k - 1, by omega⟩
            simp only [Nat.add_sub_cancel]
            exact delays_range_shift _ _ _ _ _

theorem executeWithRetryGo_404 {α : Type} (outcomes : ℕ → Outcome α)
    (maxR : ℕ) :
    ∀ (k fuel c : ℕ) (st : ServiceState) (urls : List String) (delays : List ℚ),
      c + fuel = maxR + 1 → c + k ≤ maxR →
      (∀ i, i < k → ∃ s, outcomes (c + i) = .failure s ∧ s ≠ some 404) →
      outcomes (c + k) = .failure (some 404) →
      (executeWithRetryGo outcomes maxR fuel st c urls delays).result =
        .error (some 404) ∧
      (executeWithRetryGo outcomes maxR fuel st c urls delays).attemptUrls.length =
        urls.length + (k + 1) := by
  intro k
  induction k with
  | zero =>
    intro fuel c st urls delays hf hbound _ h404
    obtain ⟨m, rfl⟩ : ∃ m, fuel = m + 1 := ⟨fuel - 1, by omega⟩
    simp only [executeWithRetryGo]
    rw [Nat.add_zero] at h404
    rw [h404]
    simp
  | succ k ih =>
    intro fuel c st urls delays hf hbound hmid h404
    obtain ⟨m, rfl⟩ : ∃ m, fuel = m + 1 := ⟨fuel - 1, by omega⟩
    obtain ⟨s, hs, hs404⟩ := hmid 0 (by omega)
    rw [Nat.add_zero] at hs
    simp only [executeWithRetryGo]
    rw [hs]
    dsimp only
    rw [if_neg hs404, if_neg (by omega : ¬ maxR < c + 1)]
    have := ih m (c + 1) st (urls ++ [getApiUrl st])
      (delays ++ [retryConfig.baseDelay * retryConfig.backoffFactor ^ (c + 1 - 1)])
      (by omega) (by omega)
      (fun i hi => by
        obtain ⟨s', hs', h4'⟩ := hmid (i + 1) (by omega)
        exact ⟨s', by rw [show c + 1 + i = c + (i + 1) by omega]; exact hs', h4'⟩)
      (by rw [show c + 1 + k = c + (k + 1) by omega]; exact h404)
    refine ⟨this.1, ?_⟩
    rw [this.2]
    simp
    omega

/-- C3 (amended): in the retry path the effective `executeApiCall` actually
uses (`executeWithRetry`), the delay before retry attempt `k` equals
`baseDelay × backoffFactor^(k-1)` and a 404-status error aborts with no
further attempt; but a 429/403 error does *not* trigger provider failover:
`executeWithRetry` never calls `switchToNextProxy` (that logic exists only in
an earlier, shadowed definition of `executeApiCall`), so the proxy index is
unchanged and every attempt of a run is issued against the same URL —
moreover `getApiUrl` returns the configured non-empty `baseUrl` regardless of
the proxy index. -/
theorem retry_schedule_404_and_no_failover {α : Type} (st : ServiceState)
    (outcomes : ℕ → Outcome α) :
    (executeWithRetry outcomes st).finalState.currentProxyIndex =
      st.currentProxyIndex ∧
    (executeWithRetry outcomes st).attemptUrls =
      List.replicate (executeWithRetry outcomes st).attemptUrls.length
        (getApiUrl st) ∧
    (executeWithRetry outcomes st).delays =
      (List.range ((executeWithRetry outcomes st).attemptUrls.length - 1)).map
        (fun i => 2000 * 2 ^ i) ∧
    (st.baseUrl ≠ "" → ∀ u ∈ (executeWithRetry outcomes st).attemptUrls,
      u = st.baseUrl) ∧
    (∀ k, k ≤ 5 → (∀ i, i < k → ∃ s, outcomes i = .failure s ∧ s ≠ some 404) →
      outcomes k = .failure (some 404) →
      (executeWithRetry outcomes st).result = .error (some 404) ∧
      (executeWithRetry outcomes st).attemptUrls.length = k + 1) := by
  obtain ⟨k, hk1, hurls, hdelays, hproxy, _⟩ :=
    executeWithRetryGo_trace outcomes retryConfig.maxRetries
      (retryConfig.maxRetries + 1) 0 st [] [] (by omega) (by omega)
  have hlen : (executeWithRetry outcomes st).attemptUrls.length = k := by
    unfold executeWithRetry
    rw [hurls]
    simp
  refine ⟨hproxy, ?_, ?_, ?_, ?_⟩
  · rw [hlen]
    unfold executeWithRetry
    rw [hurls]
    simp
  · rw [hlen]
    unfold executeWithRetry
    rw [hdelays]
    simp only [List.nil_append]
    apply List.map_congr_left
    intro i _
    simp [retryConfig]
  · intro hbase u hu
    unfold executeWithRetry at hu
    rw [hurls] at hu
    simp only [List.nil_append, List.eq_of_mem_replicate hu] at *
    simp [getApiUrl, hbase]
  · intro j hj hmid h404
    have := executeWithRetryGo_404 outcomes retryConfig.maxRetries j
      (retryConfig.maxRetries + 1) 0 st [] [] (by omega)
      (by simpa [retryConfig] using hj)
      (fun i hi => by simpa using hmid i hi) (by simpa using h404)
    exact ⟨this.1, by simpa using this.2⟩

/-- C3 counterexample: a first attempt failing with status 429 is retried
after the 2000 ms base delay against the *same* endpoint URL, with the proxy
index unchanged — no failover to a different provider endpoint happens before
the next attempt. -/
theorem no_failover_after_429 :
    (executeWithRetry
        (fun k => if k = 0 then .failure (some 429) else .success (42 : ℕ))
        ⟨"https://api.coingecko.com/api/v3", 0, 0, 40⟩).finalState.currentProxyIndex
      = 0 ∧
    (executeWithRetry
        (fun k => if k = 0 then .failure (some 429) else .success (42 : ℕ))
        ⟨"https://api.coingecko.com/api/v3", 0, 0, 40⟩).attemptUrls =
      ["https://api.coingecko.com/api/v3", "https://api.coingecko.com/api/v3"] ∧
    (executeWithRetry
        (fun k => if k = 0 then .failure (some 429) else .success (42 : ℕ))
        ⟨"https://api.coingecko.com/api/v3", 0, 0, 40⟩).delays = [2000] := by
  refine ⟨by decide, by decide, ?_⟩
  norm_num [executeWithRetry, executeWithRetryGo, retryConfig, getApiUrl]

/-! ### C4 and C7: alert deduplication and pruning of the sent set -/

theorem mem_mapSet_self (m : List (String × ℕ)) (k : String) (v : ℕ) :
    (k, v) ∈ mapSet m k v := by
  induction m with
  | nil => simp [mapSet]
  | cons head tail ih =>
    obtain ⟨k', v'⟩ := head
    by_cases h : k' = k <;> simp [mapSet, h, ih]

theorem mapHas_of_mem {m : List (String × ℕ)} {k : String} {v : ℕ}
    (h : (k, v) ∈ m) : mapHas m k = true := by
  simp only [mapHas, List.any_eq_true]
  exact ⟨(k, v), h, by simp⟩

/-- C4: for an asset present in the database, two anomalies with the same
asset id and kind processed within the same 1-minute bucket produce exactly
one persisted alert row: the first call persists one row, the second returns
`null` and leaves the state unchanged. -/
theorem anomaly_alert_dedup_in_minute_bucket (cryptos : List Crypto)
    (t1 t2 : ℕ) (a1 a2 : Anomaly) (st : AlertState)
    (hc : (cryptos.find? (fun c => c.id == a1.crypto_id)).isSome = true)
    (hid : a2.crypto_id = a1.crypto_id) (hty : a2.anomaly_type = a1.anomaly_type)
    (hb : t2 / 60000 = t1 / 60000)
    (hkey : mapHas st.sentAlerts (anomalyAlertKey a1 t1) = false) :
    (∃ al, (createAlertFromAnomaly cryptos t1 a1 st).1 = some al ∧
      (createAlertFromAnomaly cryptos t1 a1 st).2.alerts = st.alerts ++ [al]) ∧
    (createAlertFromAnomaly cryptos t2 a2
      (createAlertFromAnomaly cryptos t1 a1 st).2).1 = none ∧
    (createAlertFromAnomaly cryptos t2 a2
      (createAlertFromAnomaly cryptos t1 a1 st).2).2 =
      (createAlertFromAnomaly cryptos t1 a1 st).2 := by
  obtain ⟨c, hc'⟩ := Option.isSome_iff_exists.mp hc
  have hk2 : anomalyAlertKey a2 t2 = anomalyAlertKey a1 t1 := by
    unfold anomalyAlertKey
    rw [hid, hty, hb]
  have hfind2 : cryptos.find? (fun c => c.id == a2.crypto_id) = some c := by
    rw [hid]; exact hc'
  -- evaluate the first call explicitly
  simp only [createAlertFromAnomaly, hc', hfind2, hkey, Bool.false_eq_true,
    if_false]
  refine ⟨⟨_, rfl, rfl⟩, ?_⟩
  have hmem : (anomalyAlertKey a1 t1, t1) ∈
      cleanupSentAlerts t1 (mapSet st.sentAlerts (anomalyAlertKey a1 t1) t1) := by
    apply List.mem_filter.mpr
    refine ⟨mem_mapSet_self _ _ _, ?_⟩
    simp
  simp only [hk2, mapHas_of_mem hmem, if_true]
  exact ⟨trivial, trivial⟩

theorem anomaly_alert_dedup_in_minute_bucket_witness :
    (([⟨"btc", "Bitcoin", "BTC"⟩] : List Crypto).find?
        (fun c => c.id == ("btc" : String))).isSome = true ∧
    ((createAlertFromAnomaly [⟨"btc", "Bitcoin", "BTC"⟩] 30000
        ⟨"btc", "price", 100, 106, 6⟩
        (createAlertFromAnomaly [⟨"btc", "Bitcoin", "BTC"⟩] 0
          ⟨"btc", "price", 100, 106, 6⟩ ⟨[], []⟩).2).1 = none) :=
  ⟨by decide,
    (anomaly_alert_dedup_in_minute_bucket [⟨"btc", "Bitcoin", "BTC"⟩] 0 30000
      ⟨"btc", "price", 100, 106, 6⟩ ⟨"btc", "price", 100, 106, 6⟩ ⟨[], []⟩
      (by decide) rfl rfl (by decide) (by decide)).2.1⟩

/-- C7 (amended): after an anomaly-path insertion into the recently-sent set
(`createAlertFromAnomaly` returning an alert), every entry strictly older than
1 hour has been pruned; the indicator path (`processIndicators`) inserts
without pruning (see the accompanying counterexample). -/
theorem anomaly_insertion_prunes_sent_set (cryptos : List Crypto) (now : ℕ)
    (anomaly : Anomaly) (st : AlertState) (al : Alert) (stFinal : AlertState)
    (h : createAlertFromAnomaly cryptos now anomaly st = (some al, stFinal)) :
    ∀ e ∈ stFinal.sentAlerts, now - e.2 ≤ 3600000 := by
  unfold createAlertFromAnomaly at h
  cases hf : cryptos.find? (fun c => c.id == anomaly.crypto_id) with
  | none => rw [hf] at h; simp at h
  | some c =>
    rw [hf] at h
    by_cases hhas : mapHas st.sentAlerts (anomalyAlertKey anomaly now) = true
    · simp only [hhas, if_true] at h
      simp at h
    · simp only [Bool.not_eq_true] at hhas
      simp only [hhas, Bool.false_eq_true, if_false] at h
      have hsent : stFinal.sentAlerts = cleanupSentAlerts now
          (mapSet st.sentAlerts (anomalyAlertKey anomaly now) now) :=
        (congrArg (fun p => (Prod.snd p).sentAlerts) h).symm
      intro e he
      rw [hsent] at he
      have := (List.mem_filter.mp he).2
      simp only [Bool.not_eq_eq_eq_not, Bool.not_true, decide_eq_false_iff_not,
        not_lt] at this
      omega

theorem anomaly_insertion_prunes_sent_set_witness :
    createAlertFromAnomaly [⟨"btc", "Bitcoin", "BTC"⟩] 0
        ⟨"btc", "other", 100, 106, 6⟩ ⟨[], []⟩ =
      (some ⟨"btc", "info", some 100, some 106, some 6, "medium"⟩,
        ⟨[("btc-other-0", 0)],
          [⟨"btc", "info", some 100, some 106, some 6, "medium"⟩]⟩) ∧
    (∀ e ∈ ([("btc-other-0", 0)] : List (String × ℕ)), 0 - e.2 ≤ 3600000) :=
  ⟨by decide,
    anomaly_insertion_prunes_sent_set [⟨"btc", "Bitcoin", "BTC"⟩] 0
      ⟨"btc", "other", 100, 106, 6⟩ ⟨[], []⟩
      ⟨"btc", "info", some 100, some 106, some 6, "medium"⟩
      ⟨[("btc-other-0", 0)],
        [⟨"btc", "info", some 100, some 106, some 6, "medium"⟩]⟩
      (by decide)⟩

/-- C7 counterexample: `processIndicators` inserts into the recently-sent set
without pruning: starting from a set holding a key inserted at time 0, an
indicator (MACD `buy`) alert created at time 7200000 (2 h later) completes
with the 2-hour-old entry still present. -/
theorem indicator_insertion_does_not_prune :
    (processIndicators [⟨"btc", "Bitcoin", "BTC"⟩] 7200000 "btc" none
        ⟨none, none, none, some "bullish", some "buy", none, "buy", 0, 1, 0, 0⟩
        ⟨[("stale", 0)], []⟩).1.length = 1 ∧
    ("stale", 0) ∈ (processIndicators [⟨"btc", "Bitcoin", "BTC"⟩] 7200000 "btc"
        none ⟨none, none, none, some "bullish", some "buy", none, "buy", 0, 1, 0, 0⟩
        ⟨[("stale", 0)], []⟩).2.sentAlerts ∧
    3600000 < 7200000 - 0 := by
  have hne : ¬ (("stale" : String) =
      "btc" ++ "-macd-" ++ "buy" ++ "-" ++ toString (2 : ℕ)) := by decide
  have h0 : ((none : Option String) = some "overbought" ∨
      (none : Option String) = some "oversold") = False := by simp
  have h1 : ((none : Option String) = some "bullish" ∨
      (none : Option String) = some "bearish") = False := by simp
  refine ⟨?_, ?_, by norm_num⟩ <;>
    norm_num [processIndicators, mapHas, mapSet, beq_iff_eq, hne, h0, h1,
      Option.getD_some]

/-! ### C6: flat-history forecast — supporting lemmas -/

theorem all_zero_getD {l : List ℝ} (h : ∀ x ∈ l, x = 0) (j : ℕ) :
    l.getD j 0 = 0 := by
  rw [List.getD_eq_getElem?_getD]
  cases hj : l[j]? with
  | none => rfl
  | some x =>
    obtain ⟨hlt, rfl⟩ := List.getElem?_eq_some.mp hj
    exact h _ (List.getElem_mem hlt)

theorem all_zero_headD {l : List ℝ} (h : ∀ x ∈ l, x = 0) : l.headD 0 = 0 := by
  cases l with
  | nil => rfl
  | cons a t => exact h a (List.mem_cons_self a t)

theorem replicate_getD_lt {α : Type} (n i : ℕ) (c d : α) (h : i < n) :
    (List.replicate n c).getD i d = c := by
  rw [List.getD_eq_getElem?_getD, List.getElem?_replicate, if_pos h]
  rfl

theorem sum_map_mul_zip_replicate (l : List ℝ) (c : ℝ) :
    ∀ n, l.length = n →
      ((l.zip (List.replicate n c)).map (fun p => p.1 * p.2)).sum = l.sum * c := by
  induction l with
  | nil => intro n _; simp
  | cons a t ih =>
    intro n hn
    simp only [List.length_cons] at hn
    obtain ⟨m, rfl⟩ : ∃ m, n = m + 1 := ⟨t.length, by omega⟩
    rw [List.replicate_succ, List.zip_cons_cons, List.map_cons, List.sum_cons,
      ih m (by omega), List.sum_cons]
    ring

theorem zip_self_tail_sub_sum (c : ℝ) :
    ∀ m n : ℕ,
      (((List.replicate m c).zip (List.replicate n c)).map
        (fun p => p.2 - p.1)).sum = 0 := by
  intro m
  induction m with
  | zero => intro n; simp
  | succ k ih =>
    intro n
    cases n with
    | zero => simp
    | succ j =>
      rw [List.replicate_succ, List.replicate_succ, List.zip_cons_cons,
        List.map_cons, List.sum_cons, ih j]
      ring

theorem range_cast_sum_30 :
    ((List.range 30).map (fun (i : ℕ) => (i : ℝ))).sum = 435 := by
  have h : ((List.range 30).map (fun (i : ℕ) => (i : ℝ))).sum =
      (((List.range 30).sum : ℕ) : ℝ) := (Nat.cast_list_sum (List.range 30)).symm
  rw [h, show (List.range 30).sum = 435 from by decide]
  norm_num

theorem range_cast_sq_sum_30 :
    ((((List.range 30).map (fun (i : ℕ) => (i : ℝ))).map (fun v => v * v))).sum =
      8555 := by
  have h : (((List.range 30).map (fun (i : ℕ) => (i : ℝ))).map
      (fun v => v * v)).sum =
      ((((List.range 30).map (fun i => i * i)).sum : ℕ) : ℝ) := by
    rw [List.map_map]
    have hc : ((fun (v : ℝ) => v * v) ∘ (fun (i : ℕ) => (i : ℝ))) =
        fun (i : ℕ) => ((i * i : ℕ) : ℝ) := by
      funext i
      simp [Function.comp_apply, Nat.cast_mul]
    rw [hc]
    have := (Nat.cast_list_sum (β := ℝ) ((List.range 30).map (fun i => i * i))).symm
    rw [List.map_map] at this
    exact this
  rw [h, show ((List.range 30).map (fun i => i * i)).sum = 8555 from by decide]
  norm_num

theorem linearRegressionTrain_flat :
    linearRegressionTrain ((List.range 30).map (fun (i : ℕ) => (i : ℝ)))
      (List.replicate 30 100) = .ok ⟨100, 0, true⟩ := by
  have hlen : ((List.range 30).map (fun (i : ℕ) => (i : ℝ))).length = 30 := by
    simp
  have hxy : ((((List.range 30).map (fun (i : ℕ) => (i : ℝ))).zip
      (List.replicate 30 (100:ℝ))).map (fun p => p.1 * p.2)).sum = 43500 := by
    rw [sum_map_mul_zip_replicate _ _ 30 hlen, range_cast_sum_30]
    norm_num
  have hy : (List.replicate 30 (100:ℝ)).sum = 3000 := by
    rw [List.sum_replicate]
    norm_num
  simp only [linearRegressionTrain, hlen, List.length_replicate,
    range_cast_sum_30, range_cast_sq_sum_30, hxy, hy]
  norm_num

theorem exponentialSmoothingStep_const (m : ESModel) (c : ℝ) :
    exponentialSmoothingStep m (c, 0) c = (c, 0) := by
  simp only [exponentialSmoothingStep, Prod.mk.injEq]
  constructor <;> ring

theorem es_foldl_const (m : ESModel) (c : ℝ) :
    ∀ n : ℕ, (List.replicate n c).foldl (exponentialSmoothingStep m) (c, 0) =
      (c, 0) := by
  intro n
  induction n with
  | zero => rfl
  | succ k ih =>
    rw [List.replicate_succ, List.foldl_cons, exponentialSmoothingStep_const]
    exact ih

theorem exponentialSmoothingFit_flat :
    exponentialSmoothingFit initialESModel (List.replicate 30 100) =
      .ok ⟨0.3, 0.1, some 100, some 0⟩ := by
  have htail : (List.replicate 30 (100:ℝ)).tail = List.replicate 29 100 := rfl
  have hhead : (List.replicate 30 (100:ℝ)).headD 0 = 100 := rfl
  simp only [exponentialSmoothingFit, List.length_replicate, htail, hhead,
    zip_self_tail_sub_sum, zero_div, es_foldl_const, initialESModel]
  norm_num

theorem getD_set_ne (l : List ℝ) (j k : ℕ) (v : ℝ) (hjk : j ≠ k) :
    (l.set j v).getD k 0 = l.getD k 0 := by
  rw [List.getD_eq_getElem?_getD, List.getD_eq_getElem?_getD,
    List.getElem?_set_ne hjk]

theorem getD_set_same_zero (l : List ℝ) (j : ℕ) : (l.set j 0).getD j 0 = 0 := by
  by_cases hj : j < l.length
  · rw [List.getD_eq_getElem?_getD, List.getElem?_set_self (by simpa using hj)]
    rfl
  · rw [List.set_eq_of_length_le (by omega), List.getD_eq_getElem?_getD,
      List.getElem?_eq_none (by omega)]
    rfl

theorem rows_getD_last {p : ℕ} {m : List (List ℝ)}
    (h : ∀ row ∈ m, row.getD p 0 = 0) (j : ℕ) :
    (m.getD j []).getD p 0 = 0 := by
  rw [List.getD_eq_getElem?_getD (l := m)]
  cases hj : m[j]? with
  | none => rfl
  | some row =>
    obtain ⟨hlt, rfl⟩ := List.getElem?_eq_some.mp hj
    exact h _ (List.getElem_mem hlt)

theorem lastcol_set {p : ℕ} {m : List (List ℝ)}
    (h : ∀ row ∈ m, row.getD p 0 = 0) {r : List ℝ} (hr : r.getD p 0 = 0)
    (j : ℕ) : ∀ row ∈ m.set j r, row.getD p 0 = 0 := fun row hrow =>
  (List.mem_or_eq_of_mem_set hrow).elim (h row) (fun e => e ▸ hr)

theorem lastcol_swap (p : ℕ) (m : List (List ℝ))
    (h : ∀ row ∈ m, row.getD p 0 = 0) (i maxRow : ℕ) :
    ∀ row ∈ swapRows m i maxRow, row.getD p 0 = 0 := by
  unfold swapRows
  split
  · exact lastcol_set (lastcol_set h (rows_getD_last h _) _) (rows_getD_last h _) _
  · exact h

theorem lastcol_bump (p : ℕ) (m1 : List (List ℝ))
    (h : ∀ row ∈ m1, row.getD p 0 = 0) (i : ℕ) (hip : i < p) :
    ∀ row ∈ bumpPivot m1 i, row.getD p 0 = 0 := by
  unfold bumpPivot
  dsimp only
  split
  · apply lastcol_set h
    rw [getD_set_ne _ _ _ _ (by omega)]
    exact rows_getD_last h i
  · exact h

theorem lastcol_normalize (p : ℕ) (m2 : List (List ℝ))
    (h : ∀ row ∈ m2, row.getD p 0 = 0) (i : ℕ) :
    ∀ row ∈ normalizeRow p m2 i, row.getD p 0 = 0 := by
  unfold normalizeRow
  generalize ((List.range (p + 1)).drop i) = js
  induction js generalizing m2 with
  | nil => exact h
  | cons j js ih =>
    rw [List.foldl_cons]
    apply ih
    apply lastcol_set h
    by_cases hjp : j = p
    · subst hjp
      have hz : getCell m2 i j / getCell m2 i i = 0 := by
        rw [show getCell m2 i j = 0 from rows_getD_last h i]
        exact zero_div _
      rw [hz]
      exact getD_set_same_zero _ _
    · rw [getD_set_ne _ _ _ _ hjp]
      exact rows_getD_last h i

theorem lastcol_eliminate (p i : ℕ) (m3 : List (List ℝ)) (hip : i < p)
    (h : ∀ row ∈ m3, row.getD p 0 = 0) :
    ∀ row ∈ eliminateOthers p m3 i, row.getD p 0 = 0 := by
  intro row hrow
  unfold eliminateOthers at hrow
  obtain ⟨idx, hidx, hval⟩ := List.mem_iff_getElem.mp hrow
  rw [List.getElem_mapIdx] at hval
  have hidx2 : idx < m3.length := by simpa using hidx
  have hmem : m3[idx] ∈ m3 := List.getElem_mem _
  by_cases hji : idx = i
  · rw [← hval, if_pos hji]
    exact h _ hmem
  · rw [← hval, if_neg hji]
    set r := m3[idx] with hr
    by_cases hp : p < r.length
    · rw [List.getD_eq_getElem?_getD, List.getElem?_eq_getElem
        (by simpa using hp)]
      rw [List.getElem_mapIdx]
      simp only [Option.getD_some]
      rw [if_pos ⟨le_of_lt hip, le_refl p⟩]
      have h1 : r[p] = r.getD p 0 := by
        rw [List.getD_eq_getElem?_getD, List.getElem?_eq_getElem hp]
        rfl
      rw [h1, h _ hmem, show getCell m3 i p = (0:ℝ) from rows_getD_last h i]
      ring
    · rw [List.getD_eq_getElem?_getD, List.getElem?_eq_none (by simpa using hp)]
      rfl

theorem elimStep_last_col (p i : ℕ) (hip : i < p) (m : List (List ℝ))
    (h : ∀ row ∈ m, row.getD p 0 = 0) :
    ∀ row ∈ elimStep p m i, row.getD p 0 = 0 := by
  unfold elimStep
  exact lastcol_eliminate p i _ hip
    (lastcol_normalize p _ (lastcol_bump p _ (lastcol_swap p m h i _) i hip) i)

theorem swapRows_length (m : List (List ℝ)) (i maxRow : ℕ) :
    (swapRows m i maxRow).length = m.length := by
  unfold swapRows
  split <;> simp

theorem bumpPivot_length (m : List (List ℝ)) (i : ℕ) :
    (bumpPivot m i).length = m.length := by
  unfold bumpPivot
  dsimp only
  split <;> simp

theorem normalizeRow_length (p : ℕ) (m : List (List ℝ)) (i : ℕ) :
    (normalizeRow p m i).length = m.length := by
  unfold normalizeRow
  generalize ((List.range (p + 1)).drop i) = js
  induction js generalizing m with
  | nil => rfl
  | cons j js ih =>
    rw [List.foldl_cons, ih]
    simp

theorem eliminateOthers_length (p : ℕ) (m : List (List ℝ)) (i : ℕ) :
    (eliminateOthers p m i).length = m.length := by
  unfold eliminateOthers
  simp

theorem elimStep_length (p : ℕ) (m : List (List ℝ)) (i : ℕ) :
    (elimStep p m i).length = m.length := by
  unfold elimStep
  rw [eliminateOthers_length, normalizeRow_length, bumpPivot_length,
    swapRows_length]

theorem foldl_elimStep_lastcol (p : ℕ) (js : List ℕ) :
    ∀ (aug : List (List ℝ)), (∀ j ∈ js, j < p) →
      (∀ row ∈ aug, row.getD p 0 = 0) →
      ∀ row ∈ js.foldl (elimStep p) aug, row.getD p 0 = 0 := by
  induction js with
  | nil => intro aug _ h; exact h
  | cons j js ih =>
    intro aug hjs h
    rw [List.foldl_cons]
    exact ih _ (fun j' hj' => hjs j' (List.mem_cons_of_mem _ hj'))
      (elimStep_last_col p j (hjs j (List.mem_cons_self _ _)) aug h)

theorem foldl_elimStep_length (p : ℕ) (js : List ℕ) :
    ∀ (aug : List (List ℝ)),
      (js.foldl (elimStep p) aug).length = aug.length := by
  induction js with
  | nil => intro aug; rfl
  | cons j js ih =>
    intro aug
    rw [List.foldl_cons, ih, elimStep_length]

theorem olsAugmented_length (Xw : List (List ℝ)) (y : List ℝ) (n p : ℕ) :
    (olsAugmented Xw y n p).length = p := by
  unfold olsAugmented
  simp

theorem lastcol_append_single (r : List ℝ) (v : ℝ) (p : ℕ) (hr : r.length = p)
    (hv : v = 0) : (r ++ [v]).getD p 0 = 0 := by
  subst hv
  rw [List.getD_eq_getElem?_getD, List.getElem?_append_right (le_of_eq hr), hr]
  simp

theorem olsAugmented_lastcol (Xw : List (List ℝ)) (y : List ℝ) (n p : ℕ)
    (hy : ∀ v ∈ y, v = 0) :
    ∀ row ∈ olsAugmented Xw y n p, row.getD p 0 = 0 := by
  intro row hrow
  unfold olsAugmented at hrow
  dsimp only at hrow
  obtain ⟨idx, hidx, hval⟩ := List.mem_iff_getElem.mp hrow
  rw [List.getElem_mapIdx] at hval
  rw [← hval]
  apply lastcol_append_single
  · rw [List.getElem_mapIdx, List.length_mapIdx, List.getElem_map]
    simp
  · apply all_zero_getD
    intro v hv
    obtain ⟨i, _, rfl⟩ := List.mem_map.mp hv
    have hc : ∀ k ∈ List.range n,
        getCell Xw k i * y.getD k 0 = (fun _ => (0:ℝ)) k :=
      fun k _ => by rw [all_zero_getD hy]; ring
    rw [List.map_congr_left hc, List.map_const', List.sum_replicate, smul_zero]

theorem olsSolution_zero (Xw : List (List ℝ)) (y : List ℝ) (n p : ℕ)
    (hy : ∀ v ∈ y, v = 0) :
    (∀ v ∈ olsSolution Xw y n p, v = 0) ∧ (olsSolution Xw y n p).length = p := by
  constructor
  · intro v hv
    unfold olsSolution at hv
    obtain ⟨row, hrow, rfl⟩ := List.mem_map.mp hv
    exact foldl_elimStep_lastcol p (List.range p) _
      (fun j hj => List.mem_range.mp hj)
      (olsAugmented_lastcol Xw y n p hy) row hrow
  · unfold olsSolution
    rw [List.length_map, foldl_elimStep_length, olsAugmented_length]

theorem ordinaryLeastSquares_zero (X : List (List ℝ)) (y : List ℝ)
    (hX : X ≠ []) (hy : ∀ v ∈ y, v = 0) :
    ∃ ic : ℝ × List ℝ, ordinaryLeastSquares X y = .ok ic ∧ ic.1 = 0 ∧
      (∀ c ∈ ic.2, c = 0) ∧
      ic.2.length + 1 = ((X.map (fun row => 1 :: row)).headD []).length := by
  have hp1 : 1 ≤ ((X.map (fun row => 1 :: row)).headD []).length := by
    cases X with
    | nil => exact absurd rfl hX
    | cons r t => simp
  obtain ⟨hz, hlen⟩ := olsSolution_zero (X.map (fun row => 1 :: row)) y
    (X.map (fun row => 1 :: row)).length
    ((X.map (fun row => 1 :: row)).headD []).length hy
  refine ⟨((olsSolution (X.map (fun row => 1 :: row)) y
      (X.map (fun row => 1 :: row)).length
      ((X.map (fun row => 1 :: row)).headD []).length).headD 0,
    (olsSolution (X.map (fun row => 1 :: row)) y
      (X.map (fun row => 1 :: row)).length
      ((X.map (fun row => 1 :: row)).headD []).length).drop 1), ?_, ?_, ?_, ?_⟩
  · unfold ordinaryLeastSquares
    rw [if_neg hX]
  · exact all_zero_headD hz
  · exact fun c hc => hz c (List.drop_subset 1 _ hc)
  · rw [List.length_drop, hlen]
    omega

theorem replicate_zero_getD (n i : ℕ) : (List.replicate n (0:ℝ)).getD i 0 = 0 := by
  rw [List.getD_eq_getElem?_getD, List.getElem?_replicate]
  split <;> rfl

theorem autoRegressionFit_flat :
    ∃ a, autoRegressionFit initialARModel (List.replicate 30 100) = .ok a ∧
      a.order = 3 ∧ a.intercept = 0 ∧ (∀ c ∈ a.coefficients, c = 0) ∧
      a.coefficients.length = 3 ∧ a.normalization = some (100, 1) := by
  have hmean : (List.replicate 30 (100:ℝ)).sum /
      (((List.replicate 30 (100:ℝ)).length : ℕ) : ℝ) = 100 := by
    rw [List.sum_replicate, List.length_replicate]
    norm_num
  have hX : ((List.range 27).map (fun k => (List.range 3).map
      (fun j => (List.replicate 30 (0:ℝ)).getD (k + 3 - (j + 1)) 0))) ≠ [] := by
    simp
  have hy2 : ∀ v ∈ (List.range 27).map
      (fun k => (List.replicate 30 (0:ℝ)).getD (k + 3) 0), v = 0 := by
    intro v hv
    obtain ⟨k, _, rfl⟩ := List.mem_map.mp hv
    exact replicate_zero_getD 30 (k + 3)
  obtain ⟨ic, hols, hic1, hic2, hic3⟩ :=
    ordinaryLeastSquares_zero
      ((List.range 27).map (fun k => (List.range 3).map
        (fun j => (List.replicate 30 (0:ℝ)).getD (k + 3 - (j + 1)) 0)))
      ((List.range 27).map (fun k => (List.replicate 30 (0:ℝ)).getD (k + 3) 0))
      hX hy2
  have hheadlen : ((((List.range 27).map (fun k => (List.range 3).map
      (fun j => (List.replicate 30 (0:ℝ)).getD (k + 3 - (j + 1)) 0))).map
        (fun row => 1 :: row)).headD []).length = 4 := by
    have h27 : List.range 27 = 0 :: ((List.range 26).map Nat.succ) :=
      List.range_succ_eq_map 26
    rw [h27, List.map_cons, List.map_cons, List.headD_cons]
    simp
  refine ⟨⟨3, ic.2, ic.1, some (100, 1)⟩, ?_, rfl, hic1, hic2, ?_, rfl⟩
  · unfold autoRegressionFit
    rw [if_neg (by simp [initialARModel])]
    dsimp only [initialARModel]
    rw [hmean]
    rw [show (List.replicate 30 (100:ℝ)).map (fun v => (v - 100) ^ 2) =
      List.replicate 30 0 from by rw [List.map_replicate]; norm_num]
    rw [List.sum_replicate, smul_zero, zero_div, Real.sqrt_zero,
      if_neg (by norm_num : ¬ (1e-10 : ℝ) < 0)]
    rw [show (List.replicate 30 (100:ℝ)).map (fun v => (v - 100) / 1) =
      List.replicate 30 0 from by rw [List.map_replicate]; norm_num]
    unfold createLagMatrix
    dsimp only
    rw [List.length_replicate]
    rw [show (30 - 3 : ℕ) = 27 from rfl]
    rw [hols]
  · have h4 : ic.2.length + 1 = 4 := hic3.trans hheadlen
    show ic.2.length = 3
    omega

theorem arForecastGo_const (m : ARModel) (hint : m.intercept = 0)
    (hc : ∀ j : ℕ, m.coefficients.getD j 0 = 0)
    (hn : m.normalization = some (100, 1)) :
    ∀ (steps : ℕ) (lv : List ℝ), (∀ x ∈ lv, x = 0) →
      autoRegressionForecastGo m steps lv = List.replicate steps 100 := by
  intro steps
  induction steps with
  | zero => intro lv _; rfl
  | succ k ih =>
    intro lv hlv
    have hpred : m.intercept + ((List.range m.order).map
        (fun j => m.coefficients.getD j 0 * lv.getD j 0)).sum = 0 := by
      rw [hint]
      have hz : ∀ j ∈ List.range m.order,
          m.coefficients.getD j 0 * lv.getD j 0 = (fun _ => (0:ℝ)) j :=
        fun j _ => by rw [hc j]; ring
      rw [List.map_congr_left hz, List.map_const', List.sum_replicate,
        smul_zero, zero_add]
    simp only [autoRegressionForecastGo]
    rw [hpred, hn]
    dsimp only
    rw [show max 0 ((0:ℝ) * 1 + 100) = 100 from by norm_num,
      List.replicate_succ]
    congr 1
    apply ih
    intro x hx
    rcases List.mem_cons.mp hx with h | h
    · exact h
    · exact hlv x ((List.dropLast_sublist lv).subset h)

theorem autoRegressionForecast_flat (a : ARModel) (ho : a.order = 3)
    (hint : a.intercept = 0) (hcmem : ∀ c ∈ a.coefficients, c = 0)
    (hlen : a.coefficients.length = 3) (hn : a.normalization = some (100, 1))
    (steps : ℕ) :
    autoRegressionForecast a (List.replicate 30 100) steps =
      .ok (List.replicate steps 100) := by
  unfold autoRegressionForecast
  rw [if_neg (by rw [hlen]; norm_num), if_neg (by rw [ho]; simp), hn]
  dsimp only
  rw [show (List.replicate 30 (100:ℝ)).map (fun v => (v - 100) / 1) =
    List.replicate 30 0 from by rw [List.map_replicate]; norm_num]
  rw [List.length_replicate, ho, List.drop_replicate, List.reverse_replicate]
  congr 1
  apply arForecastGo_const a hint (fun j => all_zero_getD hcmem j) hn
  intro x hx
  exact (List.eq_of_mem_replicate hx)

theorem trainAll_flat :
    ∃ e, trainAll initialEnsemble (List.replicate 30 100) = .ok e ∧
      e.linearRegression = ⟨100, 0, true⟩ ∧
      e.exponentialSmoothing = ⟨0.3, 0.1, some 100, some 0⟩ ∧
      e.autoRegression.order = 3 ∧ e.autoRegression.intercept = 0 ∧
      (∀ c ∈ e.autoRegression.coefficients, c = 0) ∧
      e.autoRegression.coefficients.length = 3 ∧
      e.autoRegression.normalization = some (100, 1) ∧
      e.weights = initialWeights := by
  obtain ⟨a, hfit, ho, hint, hcmem, hlen, hn⟩ := autoRegressionFit_flat
  refine ⟨⟨⟨100, 0, true⟩, ⟨0.3, 0.1, some 100, some 0⟩, a, initialWeights⟩,
    ?_, rfl, rfl, ho, hint, hcmem, hlen, hn, rfl⟩
  unfold trainAll
  rw [if_neg (by simp)]
  dsimp only [initialEnsemble]
  rw [List.length_replicate, linearRegressionTrain_flat]
  dsimp only
  rw [exponentialSmoothingFit_flat]
  dsimp only
  rw [hfit]

/-- C6: on the constant history `[100] * 30` the trained ensemble forecasts
the flat line at 100 for every horizon: the linear regression fits intercept
100 and slope 0, exponential smoothing ends with level 100 and trend 0, the
autoregression forecast denormalizes to 100 at every step, and the weighted
combination is 100 at every step. -/
theorem flat_history_forecast (steps : ℕ) :
    ∃ e, trainAll initialEnsemble (List.replicate 30 100) = .ok e ∧
      e.linearRegression.alpha = 100 ∧ e.linearRegression.beta = 0 ∧
      e.exponentialSmoothing.level = some 100 ∧
      e.exponentialSmoothing.trend = some 0 ∧
      autoRegressionForecast e.autoRegression (List.replicate 30 100) steps =
        .ok (List.replicate steps 100) ∧
      (ensembleForecast e (List.replicate 30 100) steps).1 =
        List.replicate steps 100 := by
  obtain ⟨e, htrain, hlr, hes, ho, hint, hcmem, hclen, hn, hw⟩ := trainAll_flat
  have har := autoRegressionForecast_flat e.autoRegression ho hint hcmem hclen
    hn steps
  refine ⟨e, htrain, by rw [hlr], by rw [hlr], by rw [hes], by rw [hes],
    har, ?_⟩
  have hlpred : ∀ xs : List ℝ, linearRegressionPredict e.linearRegression xs
      = .ok (xs.map (fun _ => (100:ℝ))) := by
    intro xs
    rw [hlr]
    simp only [linearRegressionPredict]
    rw [if_neg (by simp)]
    congr 1
    apply List.map_congr_left
    intro x _
    norm_num
  have hespred : exponentialSmoothingForecast e.exponentialSmoothing steps
      = .ok (List.replicate steps 100) := by
    rw [hes]
    simp only [exponentialSmoothingForecast, mul_zero, add_zero]
    rw [show max (0:ℝ) 100 = 100 from by norm_num, List.map_const',
      List.length_range]
  have hmc : ∀ (l : List ℕ) (f : ℕ → ℝ),
      (l.map f).map (fun _ => (100:ℝ)) = List.replicate (l.map f).length 100 :=
    fun l f => by rw [List.map_const']
  simp only [ensembleForecast]
  rw [hlpred, hespred, har]
  dsimp only
  rw [hmc, List.length_map, List.length_range, hw]
  rw [show Weights.total initialWeights = 1 from by
    norm_num [Weights.total, initialWeights]]
  rw [if_neg (by norm_num : ¬((1:ℝ) < 0.001))]
  rw [if_neg (by norm_num : ¬((0.001:ℝ) < |(1:ℝ) - 1|))]
  dsimp only
  rw [List.length_replicate]
  rw [List.eq_replicate_iff]
  refine ⟨by rw [List.length_map, List.length_range], ?_⟩
  intro b hb
  obtain ⟨i, hi, rfl⟩ := List.mem_map.mp hb
  have hilt : i < steps := List.mem_range.mp hi
  rw [if_pos (show 0 < initialWeights.linearRegression ∧ i < steps from
      ⟨by norm_num [initialWeights], hilt⟩),
    if_pos (show 0 < initialWeights.exponentialSmoothing ∧ i < steps from
      ⟨by norm_num [initialWeights], hilt⟩),
    if_pos (show 0 < initialWeights.autoRegression ∧ i < steps from
      ⟨by norm_num [initialWeights], hilt⟩)]
  dsimp only
  rw [if_pos (by norm_num [initialWeights] :
    (0:ℝ) < initialWeights.linearRegression +
      initialWeights.exponentialSmoothing + initialWeights.autoRegression)]
  rw [replicate_getD_lt steps i (100:ℝ) 0 hilt]
  rw [show (initialWeights.linearRegression * 100 +
      initialWeights.exponentialSmoothing * 100 +
      initialWeights.autoRegression * 100) /
      (initialWeights.linearRegression + initialWeights.exponentialSmoothing +
        initialWeights.autoRegression) = 100 from by norm_num [initialWeights]]
  exact max_eq_right (by norm_num)

/-! ### C1: correlation matrix properties -/

theorem cs_step (S A B a b : ℚ) (hs : S ^ 2 ≤ A * B) (hA : 0 ≤ A)
    (hB : 0 ≤ B) : (a * b + S) ^ 2 ≤ (a * a + A) * (b * b + B) := by
  rcases eq_or_lt_of_le hB with hB0 | hBpos
  · have hS : S = 0 := by nlinarith [sq_nonneg S]
    subst hS
    nlinarith [mul_nonneg hA (mul_self_nonneg b), hB0.symm]
  · nlinarith [sq_nonneg (a * B - b * S),
      mul_nonneg (sub_nonneg.mpr hs) (add_nonneg (mul_self_nonneg b) hB),
      hBpos]

theorem sum_sq_nonneg_fst (l : List (ℚ × ℚ)) (m : ℚ) :
    0 ≤ ((l.map (fun p => (p.1 - m) * (p.1 - m))).sum) := by
  apply List.sum_nonneg
  intro x hx
  obtain ⟨p, _, rfl⟩ := List.mem_map.mp hx
  exact mul_self_nonneg _

theorem sum_sq_nonneg_snd (l : List (ℚ × ℚ)) (m : ℚ) :
    0 ≤ ((l.map (fun p => (p.2 - m) * (p.2 - m))).sum) := by
  apply List.sum_nonneg
  intro x hx
  obtain ⟨p, _, rfl⟩ := List.mem_map.mp hx
  exact mul_self_nonneg _

theorem list_cauchy_schwarz (l : List (ℚ × ℚ)) (m1 m2 : ℚ) :
    ((l.map (fun p => (p.1 - m1) * (p.2 - m2))).sum) ^ 2 ≤
      ((l.map (fun p => (p.1 - m1) * (p.1 - m1))).sum) *
      ((l.map (fun p => (p.2 - m2) * (p.2 - m2))).sum) := by
  induction l with
  | nil => simp
  | cons q l ih =>
    simp only [List.map_cons, List.sum_cons]
    exact cs_step _ _ _ _ _ ih (sum_sq_nonneg_fst l m1) (sum_sq_nonneg_snd l m2)

theorem roundTo4_bounds (x : ℝ) (hlo : -1 ≤ x) (hhi : x ≤ 1) :
    -1 ≤ roundTo4 x ∧ roundTo4 x ≤ 1 := by
  unfold roundTo4
  constructor
  · rw [le_div_iff (by norm_num : (0:ℝ) < 10000)]
    have h1 : (-10000 : ℤ) ≤ ⌊x * 10000 + 1 / 2⌋ := by
      have h2 : (⌊(-9999.5 : ℝ)⌋ : ℤ) = -10000 := by
        rw [Int.floor_eq_iff] <;> norm_num
      rw [← h2]
      apply Int.floor_mono
      nlinarith
    calc (-1 : ℝ) * 10000 = ((-10000 : ℤ) : ℝ) := by norm_num
      _ ≤ _ := by exact_mod_cast h1
  · rw [div_le_one (by norm_num : (0:ℝ) < 10000)]
    have h1 : ⌊x * 10000 + 1 / 2⌋ ≤ (10000 : ℤ) := by
      have h2 : (⌊(10000.5 : ℝ)⌋ : ℤ) = 10000 := by
        rw [Int.floor_eq_iff] <;> norm_num
      rw [← h2]
      apply Int.floor_mono
      nlinarith
    exact_mod_cast h1

theorem pearson_value_bounds (s1 s2 : List (ℤ × ℚ)) :
    -1 ≤ calculatePearsonCorrelation s1 s2 ∧
      calculatePearsonCorrelation s1 s2 ≤ 1 := by
  simp only [calculatePearsonCorrelation]
  by_cases h1 : (alignTimeSeries s1 s2).1.length < 2
  · rw [if_pos h1]; norm_num
  · rw [if_neg h1]
    by_cases h2 : (pearsonSums s1 s2).2.1 = 0 ∨ (pearsonSums s1 s2).2.2 = 0
    · rw [if_pos h2]; norm_num
    · rw [if_neg h2]
      push_neg at h2
      obtain ⟨hA, hB⟩ := h2
      have hcs : ((pearsonSums s1 s2).1) ^ 2 ≤
          (pearsonSums s1 s2).2.1 * (pearsonSums s1 s2).2.2 := by
        simp only [pearsonSums]
        exact list_cauchy_schwarz _ _ _
      have hAnn : 0 ≤ (pearsonSums s1 s2).2.1 := by
        simp only [pearsonSums]
        exact sum_sq_nonneg_fst _ _
      have hBnn : 0 ≤ (pearsonSums s1 s2).2.2 := by
        simp only [pearsonSums]
        exact sum_sq_nonneg_snd _ _
      have hApos : (0:ℝ) < ((pearsonSums s1 s2).2.1 : ℝ) := by
        exact_mod_cast lt_of_le_of_ne hAnn (Ne.symm hA)
      have hBpos : (0:ℝ) < ((pearsonSums s1 s2).2.2 : ℝ) := by
        exact_mod_cast lt_of_le_of_ne hBnn (Ne.symm hB)
      have hsq : (Real.sqrt ((pearsonSums s1 s2).2.1 : ℝ) *
          Real.sqrt ((pearsonSums s1 s2).2.2 : ℝ)) ^ 2 =
          ((pearsonSums s1 s2).2.1 : ℝ) * ((pearsonSums s1 s2).2.2 : ℝ) := by
        rw [mul_pow, Real.sq_sqrt hApos.le, Real.sq_sqrt hBpos.le]
      have hdenpos : 0 < Real.sqrt ((pearsonSums s1 s2).2.1 : ℝ) *
          Real.sqrt ((pearsonSums s1 s2).2.2 : ℝ) :=
        mul_pos (Real.sqrt_pos.mpr hApos) (Real.sqrt_pos.mpr hBpos)
      have hr2 : (((pearsonSums s1 s2).1 : ℝ) /
          (Real.sqrt ((pearsonSums s1 s2).2.1 : ℝ) *
            Real.sqrt ((pearsonSums s1 s2).2.2 : ℝ))) ^ 2 ≤ 1 := by
        rw [div_pow, hsq, div_le_one (by positivity)]
        calc (((pearsonSums s1 s2).1 : ℝ)) ^ 2
            = ((((pearsonSums s1 s2).1) ^ 2 : ℚ) : ℝ) := by push_cast; ring
          _ ≤ (((pearsonSums s1 s2).2.1 * (pearsonSums s1 s2).2.2 : ℚ) : ℝ) :=
            by exact_mod_cast hcs
          _ = _ := by push_cast; ring
      have habs' : |((pearsonSums s1 s2).1 : ℝ) /
          (Real.sqrt ((pearsonSums s1 s2).2.1 : ℝ) *
            Real.sqrt ((pearsonSums s1 s2).2.2 : ℝ))| ≤ 1 := by
        rw [← sq_le_one_iff_abs_le_one]
        exact hr2
      have habs := abs_le.mp habs'
      exact roundTo4_bounds _ habs.1 habs.2

theorem pearson_degenerate (s1 s2 : List (ℤ × ℚ))
    (h : degeneratePair s1 s2) : calculatePearsonCorrelation s1 s2 = 0 := by
  simp only [calculatePearsonCorrelation]
  rcases h with h | h
  · rw [if_pos h]
  · by_cases h1 : (alignTimeSeries s1 s2).1.length < 2
    · rw [if_pos h1]
    · rw [if_neg h1]
      rw [if_pos h]

theorem mapKeys_go_mem (s : List (ℤ × ℚ)) (acc : List ℤ) (t : ℤ) :
    (t ∈ s.foldl (fun acc p => if p.1 ∈ acc then acc else acc ++ [p.1]) acc) ↔
      t ∈ acc ∨ t ∈ s.map Prod.fst := by
  induction s generalizing acc with
  | nil => simp
  | cons p rest ih =>
    simp only [List.foldl_cons, List.map_cons, List.mem_cons]
    rw [ih]
    by_cases hp : p.1 ∈ acc
    · rw [if_pos hp]
      constructor
      · rintro (h | h)
        · exact Or.inl h
        · exact Or.inr (Or.inr h)
      · rintro (h | h | h)
        · exact Or.inl h
        · exact Or.inl (h ▸ hp)
        · exact Or.inr h
    · rw [if_neg hp]
      simp only [List.mem_append, List.mem_singleton]
      tauto

theorem mapKeys_mem (s : List (ℤ × ℚ)) (t : ℤ) :
    t ∈ mapKeys s ↔ t ∈ s.map Prod.fst := by
  rw [mapKeys, mapKeys_go_mem]
  simp

theorem mapKeys_go_nodup (s : List (ℤ × ℚ)) (acc : List ℤ)
    (hacc : acc.Nodup) :
    (s.foldl (fun acc p => if p.1 ∈ acc then acc else acc ++ [p.1])
      acc).Nodup := by
  induction s generalizing acc with
  | nil => exact hacc
  | cons p rest ih =>
    simp only [List.foldl_cons]
    by_cases hp : p.1 ∈ acc
    · rw [if_pos hp]
      exact ih acc hacc
    · rw [if_neg hp]
      apply ih
      rw [List.nodup_append]
      exact ⟨hacc, List.nodup_singleton _,
        fun a ha hb => hp (by rwa [List.mem_singleton.mp hb] at ha)⟩

theorem mapKeys_nodup (s : List (ℤ × ℚ)) : (mapKeys s).Nodup :=
  mapKeys_go_nodup s [] List.nodup_nil

theorem commonTs_perm (s1 s2 : List (ℤ × ℚ)) :
    ((mapKeys s2).filter (fun ts => ts ∈ s1.map Prod.fst)).Perm
      ((mapKeys s1).filter (fun ts => ts ∈ s2.map Prod.fst)) := by
  apply List.perm_of_nodup_nodup_toFinset_eq
    ((mapKeys_nodup s2).filter _) ((mapKeys_nodup s1).filter _)
  ext t
  simp only [List.mem_toFinset, List.mem_filter, mapKeys_mem,
    decide_eq_true_eq]
  tauto

theorem zip_sum_swap (c d : List ℤ) (hp : c.Perm d) (f g : ℤ → ℚ)
    (m1 m2 : ℚ) :
    (((c.map f).zip (c.map g)).map (fun p => (p.1 - m1) * (p.2 - m2))).sum =
    (((d.map g).zip (d.map f)).map (fun p => (p.1 - m2) * (p.2 - m1))).sum := by
  rw [List.zip_map', List.zip_map', List.map_map, List.map_map]
  refine Eq.trans (congrArg List.sum (List.map_congr_left ?_))
    ((hp.map _).sum_eq)
  intro t ht
  simp only [Function.comp_apply]
  ring

theorem zip_sq_fst_swap (c d : List ℤ) (hp : c.Perm d) (f g : ℤ → ℚ)
    (m : ℚ) :
    (((c.map f).zip (c.map g)).map (fun p => (p.1 - m) * (p.1 - m))).sum =
    (((d.map g).zip (d.map f)).map (fun p => (p.2 - m) * (p.2 - m))).sum := by
  rw [List.zip_map', List.zip_map', List.map_map, List.map_map]
  refine Eq.trans (congrArg List.sum (List.map_congr_left ?_))
    ((hp.map _).sum_eq)
  intro t ht
  simp only [Function.comp_apply]

theorem zip_sq_snd_swap (c d : List ℤ) (hp : c.Perm d) (f g : ℤ → ℚ)
    (m : ℚ) :
    (((c.map f).zip (c.map g)).map (fun p => (p.2 - m) * (p.2 - m))).sum =
    (((d.map g).zip (d.map f)).map (fun p => (p.1 - m) * (p.1 - m))).sum :=
  (zip_sq_fst_swap d c hp.symm g f m).symm

theorem align_length_swap (s1 s2 : List (ℤ × ℚ)) :
    (alignTimeSeries s2 s1).1.length = (alignTimeSeries s1 s2).1.length := by
  simp only [alignTimeSeries]
  rw [List.length_map, List.length_map]
  exact (commonTs_perm s1 s2).length_eq

theorem pearsonSums_swap (s1 s2 : List (ℤ × ℚ)) :
    pearsonSums s2 s1 = ((pearsonSums s1 s2).1,
      (pearsonSums s1 s2).2.2, (pearsonSums s1 s2).2.1) := by
  have hperm := commonTs_perm s1 s2
  have hs1 := (hperm.map (mapGet s1)).sum_eq
  have hs2 := (hperm.map (mapGet s2)).sum_eq
  have hl := hperm.length_eq
  simp only [pearsonSums, alignTimeSeries, Prod.mk.injEq]
  rw [List.length_map, List.length_map, List.length_map, List.length_map,
    hl, hs1, hs2]
  refine ⟨?_, ?_, ?_⟩
  · exact zip_sum_swap _ _ hperm (mapGet s2) (mapGet s1) _ _
  · exact zip_sq_fst_swap _ _ hperm (mapGet s2) (mapGet s1) _
  · exact zip_sq_snd_swap _ _ hperm (mapGet s2) (mapGet s1) _

theorem pearson_swap (s1 s2 : List (ℤ × ℚ)) :
    calculatePearsonCorrelation s2 s1 = calculatePearsonCorrelation s1 s2 := by
  simp only [calculatePearsonCorrelation]
  rw [align_length_swap s1 s2, pearsonSums_swap s1 s2]
  by_cases h1 : (alignTimeSeries s1 s2).1.length < 2
  · rw [if_pos h1, if_pos h1]
  · rw [if_neg h1, if_neg h1]
    dsimp only
    by_cases h2 : (pearsonSums s1 s2).2.1 = 0 ∨ (pearsonSums s1 s2).2.2 = 0
    · rw [if_pos (Or.symm h2), if_pos h2]
    · rw [if_neg (fun h => h2 (Or.symm h)), if_neg h2]
      congr 1
      rw [mul_comm]

theorem find?_unique_value {α β : Type} (l : List α) (p : α → Bool)
    (v : α → β) (c : β) (hex : ∃ x ∈ l, p x = true)
    (hall : ∀ x ∈ l, p x = true → v x = c) :
    ((l.find? p).map v) = some c := by
  cases h : l.find? p with
  | none =>
    rw [List.find?_eq_none] at h
    obtain ⟨x, hx, hpx⟩ := hex
    exact absurd hpx (h x hx)
  | some x =>
    have hpx := List.find?_some h
    have hmem := List.mem_of_find?_eq_some h
    simp [hall x hmem hpx]

theorem pairWrites_shape (c : String × List (ℤ × ℚ))
    (rest : List (String × List (ℤ × ℚ))) (w : String × String × ℝ)
    (hw : w ∈ pairWrites c rest) :
    w = (c.1, c.1, 1) ∨
      ∃ c2 ∈ rest, w = (c.1, c2.1, calculatePearsonCorrelation c.2 c2.2) ∨
        w = (c2.1, c.1, calculatePearsonCorrelation c.2 c2.2) := by
  simp only [pairWrites, List.mem_cons, List.mem_flatMap] at hw
  rcases hw with rfl | ⟨c2, hc2, hw⟩
  · exact Or.inl rfl
  · right
    refine ⟨c2, hc2, ?_⟩
    simp only [List.mem_cons, List.not_mem_nil, or_false] at hw
    exact hw

theorem pairWrites_self_mem (c : String × List (ℤ × ℚ))
    (rest : List (String × List (ℤ × ℚ))) :
    (c.1, c.1, (1:ℝ)) ∈ pairWrites c rest := by
  simp only [pairWrites]
  exact List.mem_cons_self _ _

theorem pairWrites_cross_mem1 (c : String × List (ℤ × ℚ))
    (rest : List (String × List (ℤ × ℚ))) (c2 : String × List (ℤ × ℚ))
    (h : c2 ∈ rest) :
    (c.1, c2.1, calculatePearsonCorrelation c.2 c2.2) ∈ pairWrites c rest := by
  simp only [pairWrites, List.mem_cons, List.mem_flatMap]
  right
  exact ⟨c2, h, by simp⟩

theorem pairWrites_cross_mem2 (c : String × List (ℤ × ℚ))
    (rest : List (String × List (ℤ × ℚ))) (c2 : String × List (ℤ × ℚ))
    (h : c2 ∈ rest) :
    (c2.1, c.1, calculatePearsonCorrelation c.2 c2.2) ∈ pairWrites c rest := by
  simp only [pairWrites, List.mem_cons, List.mem_flatMap]
  right
  exact ⟨c2, h, by simp⟩

theorem matrix_shape (ts : List (String × List (ℤ × ℚ)))
    (hnd : (ts.map Prod.fst).Nodup) (w : String × String × ℝ)
    (hw : w ∈ calculateCorrelationMatrix ts) :
    (∃ p ∈ ts, w = (p.1, p.1, 1)) ∨
      ∃ p ∈ ts, ∃ q ∈ ts, p.1 ≠ q.1 ∧
        (w = (p.1, q.1, calculatePearsonCorrelation p.2 q.2) ∨
         w = (q.1, p.1, calculatePearsonCorrelation p.2 q.2)) := by
  induction ts with
  | nil => simp [calculateCorrelationMatrix] at hw
  | cons c rest ih =>
    simp only [List.map_cons, List.nodup_cons] at hnd
    obtain ⟨hc, hrest⟩ := hnd
    simp only [calculateCorrelationMatrix, List.mem_append] at hw
    rcases hw with hw | hw
    · rcases pairWrites_shape c rest w hw with h | ⟨c2, hc2, h⟩
      · exact Or.inl ⟨c, List.mem_cons_self c rest, h⟩
      · right
        refine ⟨c, List.mem_cons_self c rest, c2,
          List.mem_cons_of_mem c hc2, ?_, h⟩
        intro he
        exact hc (by rw [he]; exact List.mem_map_of_mem Prod.fst hc2)
    · rcases ih hrest hw with ⟨p, hp, h⟩ | ⟨p, hp, q, hq, hne, h⟩
      · exact Or.inl ⟨p, List.mem_cons_of_mem c hp, h⟩
      · exact Or.inr ⟨p, List.mem_cons_of_mem c hp, q,
          List.mem_cons_of_mem c hq, hne, h⟩

theorem matrix_vals (ts : List (String × List (ℤ × ℚ)))
    (w : String × String × ℝ) (hw : w ∈ calculateCorrelationMatrix ts) :
    -1 ≤ w.2.2 ∧ w.2.2 ≤ 1 := by
  induction ts with
  | nil => simp [calculateCorrelationMatrix] at hw
  | cons c rest ih =>
    simp only [calculateCorrelationMatrix, List.mem_append] at hw
    rcases hw with hw | hw
    · rcases pairWrites_shape c rest w hw with h | ⟨c2, _, h | h⟩
      · subst h; norm_num
      · subst h; exact pearson_value_bounds c.2 c2.2
      · subst h; exact pearson_value_bounds c.2 c2.2
    · exact ih hw

theorem matrix_coords (ts : List (String × List (ℤ × ℚ)))
    (w : String × String × ℝ) (hw : w ∈ calculateCorrelationMatrix ts) :
    w.1 ∈ ts.map Prod.fst ∧ w.2.1 ∈ ts.map Prod.fst := by
  induction ts with
  | nil => simp [calculateCorrelationMatrix] at hw
  | cons c rest ih =>
    simp only [calculateCorrelationMatrix, List.mem_append] at hw
    simp only [List.map_cons, List.mem_cons]
    rcases hw with hw | hw
    · rcases pairWrites_shape c rest w hw with h | ⟨c2, hc2, h | h⟩
      · subst h; exact ⟨Or.inl rfl, Or.inl rfl⟩
      · subst h
        exact ⟨Or.inl rfl, Or.inr (List.mem_map_of_mem Prod.fst hc2)⟩
      · subst h
        exact ⟨Or.inr (List.mem_map_of_mem Prod.fst hc2), Or.inl rfl⟩
    · obtain ⟨h1, h2⟩ := ih hw
      exact ⟨Or.inr h1, Or.inr h2⟩

theorem matrix_self_mem (ts : List (String × List (ℤ × ℚ)))
    (p : String × List (ℤ × ℚ)) (hp : p ∈ ts) :
    (p.1, p.1, (1:ℝ)) ∈ calculateCorrelationMatrix ts := by
  induction ts with
  | nil => simp at hp
  | cons c rest ih =>
    simp only [calculateCorrelationMatrix, List.mem_append]
    rcases List.mem_cons.mp hp with rfl | hp'
    · exact Or.inl (pairWrites_self_mem p rest)
    · exact Or.inr (ih hp')

theorem matrix_cross_mem (ts : List (String × List (ℤ × ℚ)))
    (p q : String × List (ℤ × ℚ)) (hp : p ∈ ts) (hq : q ∈ ts)
    (hne : p.1 ≠ q.1) :
    ∃ r : ℝ, (p.1, q.1, r) ∈ calculateCorrelationMatrix ts := by
  induction ts with
  | nil => simp at hp
  | cons c rest ih =>
    simp only [calculateCorrelationMatrix, List.mem_append]
    rcases List.mem_cons.mp hp with rfl | hp'
    · rcases List.mem_cons.mp hq with rfl | hq'
      · exact absurd rfl hne
      · exact ⟨_, Or.inl (pairWrites_cross_mem1 p rest q hq')⟩
    · rcases List.mem_cons.mp hq with rfl | hq'
      · exact ⟨_, Or.inl (pairWrites_cross_mem2 _ rest p hp')⟩
      · obtain ⟨r, hr⟩ := ih hp' hq'
        exact ⟨r, Or.inr hr⟩

theorem getCorr_none_left (ts : List (String × List (ℤ × ℚ)))
    (a b : String) (ha : a ∉ ts.map Prod.fst) :
    getCorr (calculateCorrelationMatrix ts) a b = none := by
  have h : (calculateCorrelationMatrix ts).reverse.find?
      (fun w => w.1 == a && w.2.1 == b) = none := by
    rw [List.find?_eq_none]
    intro w hw hx
    simp only [Bool.and_eq_true, beq_iff_eq] at hx
    exact ha (hx.1 ▸ (matrix_coords ts w (List.mem_reverse.mp hw)).1)
  simp [getCorr, h]

theorem getCorr_none_right (ts : List (String × List (ℤ × ℚ)))
    (a b : String) (hb : b ∉ ts.map Prod.fst) :
    getCorr (calculateCorrelationMatrix ts) a b = none := by
  have h : (calculateCorrelationMatrix ts).reverse.find?
      (fun w => w.1 == a && w.2.1 == b) = none := by
    rw [List.find?_eq_none]
    intro w hw hx
    simp only [Bool.and_eq_true, beq_iff_eq] at hx
    exact hb (hx.2 ▸ (matrix_coords ts w (List.mem_reverse.mp hw)).2)
  simp [getCorr, h]

theorem getCorr_self (ts : List (String × List (ℤ × ℚ)))
    (hnd : (ts.map Prod.fst).Nodup) (a : String)
    (ha : a ∈ ts.map Prod.fst) :
    getCorr (calculateCorrelationMatrix ts) a a = some 1 := by
  obtain ⟨p, hp, hpa⟩ := List.mem_map.mp ha
  simp only [getCorr]
  apply find?_unique_value
  · refine ⟨(p.1, p.1, 1),
      List.mem_reverse.mpr (matrix_self_mem ts p hp), ?_⟩
    simp [hpa]
  · intro w hw hpred
    simp only [Bool.and_eq_true, beq_iff_eq] at hpred
    obtain ⟨h1, h2⟩ := hpred
    rcases matrix_shape ts hnd w (List.mem_reverse.mp hw) with
      ⟨u, _, hself⟩ | ⟨u, _, u2, _, hune, hcross | hcross⟩
    · subst hself; rfl
    · subst hcross
      exact absurd (h1.trans h2.symm) hune
    · subst hcross
      exact absurd (h2.trans h1.symm) hune

theorem getCorr_cross (ts : List (String × List (ℤ × ℚ)))
    (hnd : (ts.map Prod.fst).Nodup) (p q : String × List (ℤ × ℚ))
    (hp : p ∈ ts) (hq : q ∈ ts) (hne : p.1 ≠ q.1) :
    getCorr (calculateCorrelationMatrix ts) p.1 q.1 =
      some (calculatePearsonCorrelation p.2 q.2) := by
  simp only [getCorr]
  apply find?_unique_value
  · obtain ⟨r, hr⟩ := matrix_cross_mem ts p q hp hq hne
    exact ⟨(p.1, q.1, r), List.mem_reverse.mpr hr, by simp⟩
  · intro w hw hpred
    simp only [Bool.and_eq_true, beq_iff_eq] at hpred
    obtain ⟨h1, h2⟩ := hpred
    rcases matrix_shape ts hnd w (List.mem_reverse.mp hw) with
      ⟨u, hu, hself⟩ | ⟨u, hu, u2, hu2, hune, hcross | hcross⟩
    · subst hself
      exact absurd (h1.symm.trans h2) hne
    · subst hcross
      have hup : u = p := List.inj_on_of_nodup_map hnd hu hp h1
      have hu2q : u2 = q := List.inj_on_of_nodup_map hnd hu2 hq h2
      subst hup
      subst hu2q
      rfl
    · subst hcross
      have hu2p : u2 = p := List.inj_on_of_nodup_map hnd hu2 hp h1
      have huq : u = q := List.inj_on_of_nodup_map hnd hu hq h2
      subst hu2p
      subst huq
      exact pearson_swap _ _

/-- C1: for any asset list with pairwise-distinct ids, the correlation matrix
read back from `calculateCorrelationMatrix`'s assignments has self-correlation
1 for every asset, is symmetric in its two indices, has every stored entry in
`[-1, 1]`, and stores 0 for every pair with fewer than 2 timestamp-aligned
points or zero variance in either aligned series. -/
theorem correlation_matrix_properties (ts : List (String × List (ℤ × ℚ)))
    (hnd : (ts.map Prod.fst).Nodup) :
    (∀ p ∈ ts, getCorr (calculateCorrelationMatrix ts) p.1 p.1 = some 1) ∧
    (∀ a b : String, getCorr (calculateCorrelationMatrix ts) a b =
      getCorr (calculateCorrelationMatrix ts) b a) ∧
    (∀ (a b : String) (r : ℝ),
      getCorr (calculateCorrelationMatrix ts) a b = some r →
        -1 ≤ r ∧ r ≤ 1) ∧
    (∀ p ∈ ts, ∀ q ∈ ts, p.1 ≠ q.1 → degeneratePair p.2 q.2 →
      getCorr (calculateCorrelationMatrix ts) p.1 q.1 = some 0) := by
  refine ⟨?_, ?_, ?_, ?_⟩
  · intro p hp
    exact getCorr_self ts hnd p.1 (List.mem_map_of_mem Prod.fst hp)
  · intro a b
    by_cases hab : a = b
    · subst hab; rfl
    · by_cases ha : a ∈ ts.map Prod.fst
      · by_cases hb : b ∈ ts.map Prod.fst
        · obtain ⟨p, hp, hpa⟩ := List.mem_map.mp ha
          obtain ⟨q, hq, hqb⟩ := List.mem_map.mp hb
          subst hpa
          subst hqb
          rw [getCorr_cross ts hnd p q hp hq hab,
            getCorr_cross ts hnd q p hq hp (Ne.symm hab),
            pearson_swap p.2 q.2]
        · rw [getCorr_none_right ts a b hb, getCorr_none_left ts b a hb]
      · rw [getCorr_none_left ts a b ha, getCorr_none_right ts b a ha]
  · intro a b r hr
    simp only [getCorr] at hr
    cases hfind : (calculateCorrelationMatrix ts).reverse.find?
        (fun w => w.1 == a && w.2.1 == b) with
    | none => rw [hfind] at hr; simp at hr
    | some w =>
      rw [hfind] at hr
      simp only [Option.map_some', Option.some.injEq] at hr
      have hmem := List.mem_of_find?_eq_some hfind
      have hv := matrix_vals ts w (List.mem_reverse.mp hmem)
      rw [← hr]
      exact hv
  · intro p hp q hq hne hdeg
    rw [getCorr_cross ts hnd p q hp hq hne,
      pearson_degenerate p.2 q.2 hdeg]

theorem correlation_matrix_properties_witness :
    ((([("a", [((0:ℤ), (1:ℚ)), (1, 2)]),
        ("b", [(0, 5)])]).map Prod.fst).Nodup) ∧
    ((∀ p ∈ [("a", [((0:ℤ), (1:ℚ)), (1, 2)]), ("b", [(0, 5)])],
      getCorr (calculateCorrelationMatrix
        [("a", [((0:ℤ), (1:ℚ)), (1, 2)]), ("b", [(0, 5)])]) p.1 p.1 =
        some 1) ∧
    (∀ a b : String, getCorr (calculateCorrelationMatrix
        [("a", [((0:ℤ), (1:ℚ)), (1, 2)]), ("b", [(0, 5)])]) a b =
      getCorr (calculateCorrelationMatrix
        [("a", [((0:ℤ), (1:ℚ)), (1, 2)]), ("b", [(0, 5)])]) b a) ∧
    (∀ (a b : String) (r : ℝ),
      getCorr (calculateCorrelationMatrix
        [("a", [((0:ℤ), (1:ℚ)), (1, 2)]), ("b", [(0, 5)])]) a b = some r →
        -1 ≤ r ∧ r ≤ 1) ∧
    (∀ p ∈ [("a", [((0:ℤ), (1:ℚ)), (1, 2)]), ("b", [(0, 5)])],
      ∀ q ∈ [("a", [((0:ℤ), (1:ℚ)), (1, 2)]), ("b", [(0, 5)])],
      p.1 ≠ q.1 → degeneratePair p.2 q.2 →
      getCorr (calculateCorrelationMatrix
        [("a", [((0:ℤ), (1:ℚ)), (1, 2)]), ("b", [(0, 5)])]) p.1 q.1 =
        some 0)) :=
  ⟨by decide, correlation_matrix_properties _ (by decide)⟩

end Theorems

end CryptoIntel
